import Mathlib

/-!
Verification of the RNGzus pattern compiler (genpass).

The repository contains two near-duplicate copies of one JavaScript core:
`src/genpass.js` and the script embedded next to the terminal page
(`src/unnamed/part_001`).  This file gives a shallow embedding of that core:

* the uniform random source `randRange`/`sample` (entropy is modelled as a
  stream of raw 32-bit words; JavaScript's float64 arithmetic
  `Math.floor(min + (u / 0xffffffff) * (max - min))` is modelled by exact
  rational arithmetic, which agrees with IEEE semantics on the small integer
  bounds exercised here);
* the AST node taxonomy (`TreeNode` subclasses) with its `generate` /
  `process` operations, instrumented with a ghost trace of every
  `randRange(min, max)` call so that safety claims about the draws can be
  stated;
* the lowering backend: the string-building `compile`/`compileSingle`
  functions are embedded verbatim, and a small expression language `JSExpr`
  with a renderer and evaluator models the host `eval` of the emitted code;
* the recursive-descent parser with its explicit context stack, embedded
  character by character, including its fault behaviour.

JavaScript numbers that can be `NaN` (range bounds, repeat counts before
validation) are modelled as `Option ℤ` with `none` playing the role of `NaN`.
-/

namespace RNGzus

/-- Errors observable from a REPL turn.  `parseError` models the source's
`ParseError` subclass (message plus zero-based character index); the other
constructors model host-level exceptions that carry only a message:
`typeError` for calls on `undefined`, `rangeError` for `Array(n)` with a
negative length, and `malformed` for a `SyntaxError` raised by the host
when asked to evaluate emitted code that does not parse. -/
inductive Err where
  | parseError (message : String) (index : ℕ)
  | typeError (message : String)
  | rangeError (message : String)
  | malformed (message : String)
  deriving Repr, DecidableEq

/-- Message text of an error, as read by `parseRepl` from `ex.message`. -/
def Err.message : Err → String
  | .parseError m _ => m
  | .typeError m => m
  | .rangeError m => m
  | .malformed m => m

/-- Index of an error as read by `ex.index`: only `ParseError` instances
carry one; on the others the JavaScript property access yields `undefined`. -/
def Err.index : Err → Option ℕ
  | .parseError _ i => some i
  | _ => none

/-- The entropy source: an infinite supply of raw words, one per
`crypto.getRandomValues(new Uint32Array(1))` call. -/
def Stream32 : Type := ℕ → ℕ

/-- The `p`-th 32-bit word drawn from the stream. -/
def word (s : Stream32) (p : ℕ) : ℕ := s p % 4294967296

/-- Embeds `randRange(min, max)` from the source:
`Math.floor(min + rnd * (max - min))` with `rnd = u / 0xffffffff`, where
`u` is the 32-bit entropy word.  The rational value
`min + (u / 4294967295) * (max - min)` has floor
`(min * 4294967295 + u * (max - min)).fdiv 4294967295`, which is the exact
integer computed here.  Note the source divides by `0xffffffff = 2^32 - 1`,
not `2^32`, so `u = 0xffffffff` gives `rnd = 1` exactly. -/
def randRange (min max : ℤ) (u : ℕ) : ℤ :=
  (min * 4294967295 + u * (max - min)).fdiv 4294967295

/-- `randRange` lifted to JavaScript numbers that may be `NaN`
(arithmetic on `NaN` yields `NaN`, and `Math.floor NaN = NaN`). -/
def randRangeN (min max : Option ℤ) (u : ℕ) : Option ℤ :=
  match min, max with
  | some a, some b => some (randRange a b u)
  | _, _ => none

/-- Embeds `sample(input)`: `input[randRange(0, input.length)]`, which is
`undefined` (`none`) when the index falls outside the collection — this
happens exactly on the extreme entropy word, where `randRange` returns
`input.length` itself. -/
def sample {α : Type} (input : List α) (u : ℕ) : Option α :=
  input.get? (randRange 0 input.length u).toNat

/-- JavaScript `String(n)` / template interpolation for an integer-or-NaN. -/
def jsToString : Option ℤ → String
  | some n => toString n
  | none => "NaN"

/-- JavaScript `ToUint16` conversion used by `String.fromCharCode`; `NaN`
converts to `0`.  (Values in the surrogate range cannot be represented by a
Lean `Char`; `Char.ofNat` maps them to `'\0'`.  All inputs exercised here
are below the surrogate range.) -/
def fromCharCode (n : Option ℤ) : Char :=
  match n with
  | some v => Char.ofNat (v % 65536).toNat
  | none => Char.ofNat 0

/-- Decimal digit test used by the `parseInt` and `Number` models. -/
def isDigit (c : Char) : Bool := '0' ≤ c && c ≤ '9'

/-- Hexadecimal digit test. -/
def isHexDigit (c : Char) : Bool :=
  isDigit c || ('a' ≤ c && c ≤ 'f') || ('A' ≤ c && c ≤ 'F')

/-- JavaScript whitespace test (the common cases). -/
def isJsSpace (c : Char) : Bool :=
  c = ' ' || c = '\t' || c = '\n' || c = '\r'

/-- Value of a digit list read in base 10. -/
def digitsToNat (l : List Char) : ℕ :=
  l.foldl (fun acc c => acc * 10 + (c.toNat - '0'.toNat)) 0

/-- Embeds JavaScript `parseInt(str)` (radix unspecified, so radix 10 with
automatic `0x` hex detection): skip leading whitespace, read an optional
sign, then a maximal run of digits; `none` (`NaN`) when no digit follows.
A hex literal `0x…` is accepted as in the host.  Trailing garbage is
ignored, so `parseInt("3x") = 3`. -/
def jsParseInt (s : String) : Option ℤ :=
  let l := s.data.dropWhile isJsSpace
  let (sign, l) : ℤ × List Char :=
    match l with
    | '-' :: rest => (-1, rest)
    | '+' :: rest => (1, rest)
    | _ => (1, l)
  match l with
  | '0' :: 'x' :: rest | '0' :: 'X' :: rest =>
    let ds := rest.takeWhile isHexDigit
    if ds.isEmpty then none
    else some (sign * (ds.foldl (fun acc c =>
      acc * 16 + (if isDigit c then c.toNat - '0'.toNat
        else if 'a' ≤ c && c ≤ 'f' then c.toNat - 'a'.toNat + 10
        else c.toNat - 'A'.toNat + 10)) 0 : ℕ))
  | _ =>
    let ds := l.takeWhile isDigit
    if ds.isEmpty then none else some (sign * digitsToNat ds)

/-- Recognizer for the decimal part of a JavaScript numeric literal:
`digits [. digits]`, `digits .`, or `. digits`, optionally followed by an
exponent. -/
def decimalBody (l : List Char) : Bool :=
  let intPart := l.takeWhile isDigit
  let rest := l.dropWhile isDigit
  let (okMantissa, afterMantissa) : Bool × List Char :=
    match rest with
    | '.' :: r =>
      let frac := r.takeWhile isDigit
      (!intPart.isEmpty || !frac.isEmpty, r.dropWhile isDigit)
    | _ => (!intPart.isEmpty, rest)
  if !okMantissa then false
  else match afterMantissa with
    | [] => true
    | 'e' :: r | 'E' :: r =>
      let r := match r with
        | '-' :: r' => r'
        | '+' :: r' => r'
        | _ => r
      !r.isEmpty && r.all isDigit
    | _ => false

/-- Embeds JavaScript `isNaN(str)` on a string argument: the string is
coerced with `Number(…)`, which maps the empty/whitespace string to `0`,
accepts decimal and hex literals and `Infinity`, and is `NaN` otherwise. -/
def jsIsNaN (s : String) : Bool :=
  let l := (s.data.dropWhile isJsSpace).reverse.dropWhile isJsSpace |>.reverse
  if l.isEmpty then false
  else
    let l := match l with
      | '-' :: rest => rest
      | '+' :: rest => rest
      | _ => l
    if l = "Infinity".data then false
    else match l with
      | '0' :: 'x' :: rest | '0' :: 'X' :: rest =>
        !(!rest.isEmpty && rest.all isHexDigit)
      | _ => !decimalBody l

/-- JavaScript `str.charCodeAt(0)`: `NaN` on the empty string.  (For
non-BMP characters the host would return the first UTF-16 unit; all inputs
exercised here are ASCII.) -/
def charCodeAt0 (s : String) : Option ℤ :=
  s.data.head?.map (fun c => (c.toNat : ℤ))

end RNGzus

namespace RNGzus

/-- The AST node taxonomy.  Every `TreeNode` subclass of the source is one
constructor; the mutable `this.count` field (default `1`, reassigned by
`setCount`) is the first argument of each constructor.  `AlphaNode`,
`SymbolNode` and `BasicSymbolNode` are `SampleNode` subclasses that merely
fix the sample string, so they appear as `sampleSet` nodes built by the
constructor functions below.  `RangeNode` stores `start` and the exclusive
`end + 1` computed by its constructor; `AsciiRangeNode` is a `RangeNode`
holding the two character codes, with its own `generate`/`compileSingle`.
Range bounds are `Option ℤ` because they can be `NaN`. -/
inductive Node where
  | literal (count : ℤ) (s : String)
  | group (count : ℤ) (children : List Node) (sequential : Bool)
  | sampleSet (count : ℤ) (s : String)
  | any (count : ℤ)
  | numeric (count : ℤ)
  | range (count : ℤ) (start stop : Option ℤ)
  | asciiRange (count : ℤ) (start stop : Option ℤ)
  deriving Repr

/-- The `this.count` field. -/
def Node.count : Node → ℤ
  | .literal c _ => c
  | .group c _ _ => c
  | .sampleSet c _ => c
  | .any c => c
  | .numeric c => c
  | .range c _ _ => c
  | .asciiRange c _ _ => c

/-- Embeds `setCount`: replace the count field, keep everything else. -/
def Node.setCount : Node → ℤ → Node
  | .literal _ s, n => .literal n s
  | .group _ ch sq, n => .group n ch sq
  | .sampleSet _ s, n => .sampleSet n s
  | .any _, n => .any n
  | .numeric _, n => .numeric n
  | .range _ a b, n => .range n a b
  | .asciiRange _ a b, n => .asciiRange n a b

/-- The lowercase alphabet of `AlphaNode`. -/
def lowerAlpha : String := "abcdefghijklmnopqrstuvwxyz"

/-- The uppercase alphabet of `AlphaNode(true)`. -/
def upperAlpha : String := "ABCDEFGHIJKLMNOPQRSTUVWXYZ"

/-- The `SymbolNode` sample string. -/
def symbolSet : String := "!@#$%^&*()_+-=[]\x7b\x7d|;:\x27\",.<>?"

/-- The `BasicSymbolNode` sample string. -/
def basicSymbolSet : String := "!@#$%^&*?"

/-- `new AlphaNode(uppercase)`. -/
def mkAlpha (uppercase : Bool) : Node :=
  .sampleSet 1 (if uppercase then upperAlpha else lowerAlpha)

/-- `new RangeNode(start, end)`: stores `start` and `end + 1`
(`NaN + 1 = NaN`). -/
def mkRange (start stop : Option ℤ) : Node :=
  .range 1 start (stop.map (· + 1))

/-- `new AsciiRangeNode(start, end)` on two (non-empty) strings: converts
both to code points and defers to the `RangeNode` constructor. -/
def mkAsciiRange (start stop : String) : Node :=
  .asciiRange 1 (charCodeAt0 start) ((charCodeAt0 stop).map (· + 1))

/-- Result of a generation step: the value produced (`none` when the
JavaScript expression evaluated to `undefined`), the next unread position
of the entropy stream, and a ghost trace of every `(min, max)` pair passed
to `randRange` during the step. -/
structure GRes (α : Type) where
  val : α
  pos : ℕ
  calls : List (Option ℤ × Option ℤ)
  deriving Repr, DecidableEq

/-- JavaScript `array.join("")`: `undefined` entries become the empty
string. -/
def joinUndef (l : List (Option String)) : String :=
  l.foldl (fun acc v => acc ++ v.getD "") ""

/-- `Array(count).fill(0).map(_ => gen()).join("")` for a nonnegative
count: the list of the `count` successive generation results. -/
def genRepeat (g : ℕ → Except Err (GRes (Option String))) :
    ℕ → ℕ → Except Err (GRes (List (Option String)))
  | 0, p => .ok ⟨[], p, []⟩
  | k + 1, p => do
    let r ← g p
    let rest ← genRepeat g k r.pos
    .ok ⟨r.val :: rest.val, rest.pos, r.calls ++ rest.calls⟩

/-- Embeds `TreeNode.process()` (defined once on the abstract node):
`Array(this.count).fill(0).map(_ => this.generate()).join("")`.
`Array(n)` throws a `RangeError` unless `n` is a valid array length, a
whole number below `2^32` — so for negative `n` and for `n ≥ 4294967296`
(counts that large are reachable, `parseInt` being unbounded). -/
def processF (g : ℕ → Except Err (GRes (Option String))) (count : ℤ)
    (p : ℕ) : Except Err (GRes String) :=
  if count < 0 ∨ 4294967296 ≤ count then .error (.rangeError "Invalid array length")
  else do
    let r ← genRepeat g count.toNat p
    .ok ⟨joinUndef r.val, r.pos, r.calls⟩

theorem mem_of_sample {α : Type} {l : List α} {u : ℕ} {a : α}
    (h : sample l u = some a) : a ∈ l :=
  List.get?_mem h

mutual

/-- Embeds `generate()` of each node variant.  The non-sequential group
consumes one word to pick a child (`sample(this.children)`), a `TypeError`
being raised when the sampled element is `undefined`; the sequential group
concatenates each child's full `process()` output.  Every leaf that draws
records its `(min, max)` pair in the ghost trace. -/
def generate (t : Node) (s : Stream32) (p : ℕ) :
    Except Err (GRes (Option String)) :=
  match t with
  | .literal _ str => .ok ⟨some str, p, []⟩
  | .group _ children sequential =>
    if sequential then do
      let r ← processChildren children s p
      .ok ⟨some (String.join r.val), r.pos, r.calls⟩
    else
      match h : sample children (word s p) with
      | none =>
        .error (.typeError "Cannot read properties of undefined (reading 'process')")
      | some child => do
        let r ← processF (fun q => generate child s q) child.count (p + 1)
        .ok ⟨some r.val, r.pos, (some 0, some (children.length : ℤ)) :: r.calls⟩
  | .sampleSet _ str =>
    .ok ⟨(sample str.data (word s p)).map String.singleton, p + 1,
      [(some 0, some (str.length : ℤ))]⟩
  | .any _ =>
    .ok ⟨some (String.singleton (fromCharCode (some (randRange 32 127 (word s p))))),
      p + 1, [(some 32, some 127)]⟩
  | .numeric _ =>
    .ok ⟨some (toString (randRange 0 10 (word s p))), p + 1, [(some 0, some 10)]⟩
  | .range _ start stop =>
    .ok ⟨some (jsToString (randRangeN start stop (word s p))), p + 1, [(start, stop)]⟩
  | .asciiRange _ start stop =>
    .ok ⟨some (String.singleton (fromCharCode
      (jsParseInt (jsToString (randRangeN start stop (word s p)))))),
      p + 1, [(start, stop)]⟩
  termination_by sizeOf t
  decreasing_by
    all_goals simp_wf
    · omega
    · have h1 := List.sizeOf_lt_of_mem (mem_of_sample h)
      omega

/-- `this.children.map(token => token.process())`, threading the entropy
position left to right. -/
def processChildren (ts : List Node) (s : Stream32) (p : ℕ) :
    Except Err (GRes (List String)) :=
  match ts with
  | [] => .ok ⟨[], p, []⟩
  | child :: rest => do
    let r ← processF (fun q => generate child s q) child.count p
    let rr ← processChildren rest s r.pos
    .ok ⟨r.val :: rr.val, rr.pos, r.calls ++ rr.calls⟩
  termination_by sizeOf ts
  decreasing_by
    all_goals simp_wf
    all_goals omega

end

/-- Embeds `TreeNode.process()`. -/
def process (t : Node) (s : Stream32) (p : ℕ) : Except Err (GRes String) :=
  processF (fun q => generate t s q) t.count p

end RNGzus

namespace RNGzus

/-- The escaping rule applied to literal/sample text embedded in emitted
code: `.replace(/\\/g, '\\\\').replace(/"/g, '\\"')`.  The two global
replaces touch disjoint character classes (the backslashes inserted by the
first are not quotes), so together they map each backslash to a doubled
backslash and each double quote to a backslash-quote, character by
character — which is how they are embedded here. -/
def escapeLit (s : String) : String :=
  ⟨s.data.flatMap (fun c =>
    if c = '\\' then ['\\', '\\'] else if c = '"' then ['\\', '"'] else [c])⟩

/-- JavaScript `str.substring(0, n)` (code-unit prefix). -/
def jsSubstring0 (s : String) (n : ℕ) : String := ⟨s.data.take n⟩

/-- The expression language of the emitted code: exactly the shapes the
`compile`/`compileSingle` string builders produce.  `spaced` records
whether a space follows the comma in the `randRange` call (the `AnyNode`
and `NumericNode` templates have one, the `RangeNode` template does not),
so that rendering reproduces the emitted text character for character. -/
inductive JSExpr where
  | strLit (s : String)
  | sampleStr (s : String)
  | sampleArr (es : List JSExpr)
  | joinArr (es : List JSExpr)
  | randToString (a b : Option ℤ) (spaced : Bool)
  | charRand (a b : Option ℤ) (spaced : Bool)
  | repeatMap (n : ℤ) (e : JSExpr)
  deriving Repr

mutual

/-- Renders a `JSExpr` to the source text the compiler emits for it. -/
def render : JSExpr → String
  | .strLit s => "\"" ++ escapeLit s ++ "\""
  | .sampleStr s => "sample(\"" ++ escapeLit s ++ "\")"
  | .sampleArr es => "sample([" ++ renderList es ++ "])"
  | .joinArr es => "[" ++ renderList es ++ "].join(\x27\x27)"
  | .randToString a b spaced =>
    "randRange(" ++ jsToString a ++ (if spaced then ", " else ",") ++
      jsToString b ++ ").toString()"
  | .charRand a b spaced =>
    "String.fromCharCode(randRange(" ++ jsToString a ++
      (if spaced then ", " else ",") ++ jsToString b ++ "))"
  | .repeatMap n e =>
    "Array(" ++ toString n ++ ").fill(0).map(_=>" ++ render e ++ ").join(\x27\x27)"
  termination_by e => sizeOf e

/-- `array.join(',')` over rendered elements. -/
def renderList : List JSExpr → String
  | [] => ""
  | [e] => render e
  | e :: rest => render e ++ "," ++ renderList rest
  termination_by es => sizeOf es

end

mutual

/-- Embeds `TreeNode.compile()` of `part_001`: the repetition wrapper
`Array(n).fill(0).map(_=>…).join('')` for `count > 1`, the bare
`compileSingle()` otherwise. -/
def compile (t : Node) : String :=
  if t.count > 1 then
    "Array(" ++ toString t.count ++ ").fill(0).map(_=>" ++ compileSingle t ++
      ").join(\x27\x27)"
  else compileSingle t
  termination_by (sizeOf t, 1)

/-- Embeds each subclass's `compileSingle()` of `part_001`.  The
`AsciiRangeNode` case builds `super.compileSingle()` (the `RangeNode`
template over its stored numeric fields) and chops the trailing 11
characters (`.toString()`) off it. -/
def compileSingle : Node → String
  | .literal _ s => "\"" ++ escapeLit s ++ "\""
  | .group _ children sequential =>
    let arrStr := "[" ++ compileList children ++ "]"
    if sequential then arrStr ++ ".join(\x27\x27)" else "sample(" ++ arrStr ++ ")"
  | .sampleSet _ s => "sample(\"" ++ escapeLit s ++ "\")"
  | .any _ => "String.fromCharCode(randRange(32, 172))"
  | .numeric _ => "randRange(0, 10).toString()"
  | .range _ a b =>
    "randRange(" ++ jsToString a ++ "," ++ jsToString b ++ ").toString()"
  | .asciiRange _ a b =>
    let r := "randRange(" ++ jsToString a ++ "," ++ jsToString b ++ ").toString()"
    "String.fromCharCode(" ++ jsSubstring0 r (r.length - 11) ++ ")"
  termination_by t => (sizeOf t, 0)

/-- `this.children.map(x => x.compile()).join(',')`. -/
def compileList : List Node → String
  | [] => ""
  | [t] => compile t
  | t :: rest => compile t ++ "," ++ compileList rest
  termination_by ts => (sizeOf ts, 0)

end

mutual

/-- The expression form of `compile`: same structure as the string
builder, with `render` recovering the emitted text (proved below). -/
def compileE (t : Node) : JSExpr :=
  if t.count > 1 then .repeatMap t.count (compileSingleE t) else compileSingleE t
  termination_by (sizeOf t, 1)

/-- The expression form of `compileSingle`. -/
def compileSingleE : Node → JSExpr
  | .literal _ s => .strLit s
  | .group _ children sequential =>
    if sequential then .joinArr (compileEList children)
    else .sampleArr (compileEList children)
  | .sampleSet _ s => .sampleStr s
  | .any _ => .charRand (some 32) (some 172) true
  | .numeric _ => .randToString (some 0) (some 10) true
  | .range _ a b => .randToString a b false
  | .asciiRange _ a b => .charRand a b false
  termination_by t => (sizeOf t, 0)

/-- The expression forms of a child list. -/
def compileEList : List Node → List JSExpr
  | [] => []
  | t :: rest => compileE t :: compileEList rest
  termination_by ts => (sizeOf ts, 0)

end

/-- `Array(n).fill(0).map(_ => eval e).join('')` inside the evaluator. -/
def evalRepeat (g : ℕ → Except Err (Option String × ℕ)) :
    ℕ → ℕ → Except Err (List (Option String) × ℕ)
  | 0, p => .ok ([], p)
  | k + 1, p => do
    let (v, p') ← g p
    let (vs, p'') ← evalRepeat g k p'
    .ok (v :: vs, p'')

mutual

/-- Evaluation of emitted code, modelling the host `eval` in the
environment that provides `randRange` and `sample` (spec §4.4).  Array
literals evaluate all their elements left to right before `sample` draws;
`join('')` turns `undefined` entries into empty strings; `Array(n)` raises
a `RangeError` unless `n` is a valid array length (a whole number below
`2^32`). -/
def evalE (e : JSExpr) (s : Stream32) (p : ℕ) :
    Except Err (Option String × ℕ) :=
  match e with
  | .strLit str => .ok (some str, p)
  | .sampleStr str => .ok ((sample str.data (word s p)).map String.singleton, p + 1)
  | .sampleArr es => do
    let (vs, p') ← evalList es s p
    .ok ((sample vs (word s p')).join, p' + 1)
  | .joinArr es => do
    let (vs, p') ← evalList es s p
    .ok (some (joinUndef vs), p')
  | .randToString a b _ =>
    .ok (some (jsToString (randRangeN a b (word s p))), p + 1)
  | .charRand a b _ =>
    .ok (some (String.singleton (fromCharCode (randRangeN a b (word s p)))), p + 1)
  | .repeatMap n e' =>
    if n < 0 ∨ 4294967296 ≤ n then .error (.rangeError "Invalid array length")
    else do
      let (vs, p') ← evalRepeat (fun q => evalE e' s q) n.toNat p
      .ok (some (joinUndef vs), p')
  termination_by sizeOf e
  decreasing_by all_goals simp_wf

/-- Left-to-right evaluation of an array literal's elements. -/
def evalList (es : List JSExpr) (s : Stream32) (p : ℕ) :
    Except Err (List (Option String) × ℕ) :=
  match es with
  | [] => .ok ([], p)
  | e :: rest => do
    let (v, p') ← evalE e s p
    let (vs, p'') ← evalList rest s p'
    .ok (v :: vs, p'')
  termination_by sizeOf es
  decreasing_by all_goals simp_wf <;> omega

end

namespace Genpass

mutual

/-- Embeds `compile()` of `src/genpass.js`.  In this copy there is no
`compileSingle`/wrapper split: each subclass's `compile()` emits the bare
atomic expression and `this.count` is never consulted.  The
`AsciiRangeNode` case chops only 10 characters off `super.compile()`,
leaving the dot of `.toString()` behind. -/
def compile : Node → String
  | .literal _ s => "\"" ++ escapeLit s ++ "\""
  | .group _ children sequential =>
    let arrStr := "[" ++ compileList children ++ "]"
    if sequential then arrStr ++ ".join(\x27\x27)" else "sample(" ++ arrStr ++ ")"
  | .sampleSet _ s => "sample(\"" ++ escapeLit s ++ "\")"
  | .any _ => "String.fromCharCode(randRange(32, 172))"
  | .numeric _ => "randRange(0, 10).toString()"
  | .range _ a b =>
    "randRange(" ++ jsToString a ++ "," ++ jsToString b ++ ").toString()"
  | .asciiRange _ a b =>
    let r := "randRange(" ++ jsToString a ++ "," ++ jsToString b ++ ").toString()"
    "String.fromCharCode(" ++ jsSubstring0 r (r.length - 10) ++ ")"
  termination_by t => sizeOf t

/-- `this.children.map(x => x.compile()).join(',')` in the genpass copy. -/
def compileList : List Node → String
  | [] => ""
  | [t] => compile t
  | t :: rest => compile t ++ "," ++ compileList rest
  termination_by ts => sizeOf ts

end

mutual

/-- The expression form of the genpass lowering, where it has one: the
`AsciiRangeNode` emission `String.fromCharCode(randRange(a,b).)` is not a
parsable expression, so trees containing an `asciiRange` lower to `none`
and the host `eval` of their emitted text raises a `SyntaxError`. -/
def compileE : Node → Option JSExpr
  | .literal _ s => some (.strLit s)
  | .group _ children sequential => do
    let es ← compileEList children
    some (if sequential then .joinArr es else .sampleArr es)
  | .sampleSet _ s => some (.sampleStr s)
  | .any _ => some (.charRand (some 32) (some 172) true)
  | .numeric _ => some (.randToString (some 0) (some 10) true)
  | .range _ a b => some (.randToString a b false)
  | .asciiRange _ _ _ => none
  termination_by t => sizeOf t

/-- Expression forms of a child list, `none` if any child is malformed. -/
def compileEList : List Node → Option (List JSExpr)
  | [] => some []
  | t :: rest => do
    let e ← compileE t
    let es ← compileEList rest
    some (e :: es)
  termination_by ts => sizeOf ts

end

/-- Modelled from the spec: the host `eval` applied to the emitted text of
the genpass copy (§4.4).  For trees with an expression form it evaluates
that form; for the malformed `AsciiRangeNode` emission it raises the
host's `SyntaxError`. -/
def evalResult (t : Node) (s : Stream32) : Except Err (Option String × ℕ) :=
  match compileE t with
  | none => .error (.malformed "Unexpected token \x27)\x27")
  | some e => evalE e s 0

end Genpass

end RNGzus

namespace RNGzus

/-- A `ParseContext` frame: the token that closes it (`none` for the
implicit outermost frame), the `sequential` flag handed to the `GroupNode`
constructor on finalize (`false` when no instantiation argument was given,
as in the range case), and the accumulated children.  In the source the
node type to materialize is a constructor reference, but every frame uses
`GroupNode`, so only the flag is recorded. -/
structure Frame where
  endToken : Option Char
  sequential : Bool
  children : List Node
  deriving Repr

/-- Parser state: the input (as the list of its code units), the scan
index `this.current`, and the context stack with the innermost frame
first; the implicit root frame sits at the bottom.  `this.children` of the
source aliases the root frame's child list. -/
structure PState where
  input : List Char
  current : ℕ
  stack : List Frame
  deriving Repr

/-- Advance the scan index by `k` (each `advance()` call adds one, even
past the end of input). -/
def PState.bump (st : PState) (k : ℕ) : PState :=
  { st with current := st.current + k }

/-- `this.currentContext.endToken`. -/
def topEnd (st : PState) : Option Char := st.stack.head?.bind Frame.endToken

/-- `this.push(token)`: append to the innermost frame's children.  (The
stack always carries the root frame, so the empty case is unreachable.) -/
def pushNode (st : PState) (n : Node) : PState :=
  match st.stack with
  | [] => st
  | f :: rest => { st with stack := { f with children := f.children ++ [n] } :: rest }

/-- `this.pushContext(endToken, GroupNode, …args)`. -/
def pushFrame (st : PState) (endToken : Option Char) (sequential : Bool) :
    PState :=
  { st with stack := ⟨endToken, sequential, []⟩ :: st.stack }

/-- `this.push(this.popContext())`: finalize the innermost frame into a
`GroupNode` and append it to the parent frame's children. -/
def closeFrame (st : PState) : Except Err PState :=
  match st.stack with
  | [] => .error (.typeError "Cannot read properties of undefined (reading \x27finalize\x27)")
  | f :: rest =>
    let node := Node.group 1 f.children f.sequential
    match rest with
    | [] => .error (.typeError "Cannot read properties of undefined (reading \x27children\x27)")
    | g :: rest' =>
      .ok { st with stack := { g with children := g.children ++ [node] } :: rest' }

/-- The EOF message of `consumeUntil`, verbatim: the `verbage` part starts
with a space, and the template contributes another one. -/
def expectedMsg (endTokens : List Char) : String :=
  if endTokens.length > 1 then
    "Expected  one of (" ++
      String.intercalate ", " (endTokens.map
        (fun t => "\x27" ++ String.singleton t ++ "\x27")) ++ ") but got EOF"
  else
    "Expected  \x27" ++ String.singleton (endTokens.headD ' ') ++ "\x27 but got EOF"

/-- Embeds `consumeUntil(...endTokens)`: scan forward, a backslash taking
the following unit verbatim (`String(undefined)` = `"undefined"` past the
end), until one of the terminators appears; reading past the end raises a
`ParseError` at `this.current - 1`.  Returns the accumulated text, the
terminator found, and the state after it. -/
def consumeUntil (endTokens : List Char) (st : PState) :
    Except Err (String × Char × PState) :=
  match h : st.input.get? st.current with
  | none => .error (.parseError (expectedMsg endTokens) st.current)
  | some c =>
    if c ∈ endTokens then .ok ("", c, st.bump 1)
    else if c = '\\' then
      match consumeUntil endTokens (st.bump 2) with
      | .ok (out, e, st') =>
        .ok (((st.input.get? (st.current + 1)).map String.singleton).getD "undefined"
          ++ out, e, st')
      | .error err => .error err
    else
      match consumeUntil endTokens (st.bump 1) with
      | .ok (out, e, st') => .ok (String.singleton c ++ out, e, st')
      | .error err => .error err
  termination_by st.input.length + 2 - st.current
  decreasing_by
    all_goals simp_wf
    all_goals obtain ⟨hlt, -⟩ := List.get?_eq_some.mp h
    all_goals simp [PState.bump]
    all_goals omega

/-- JavaScript `str.split(sep)` for a single-character separator, at the
code-unit level: adjacent separators give empty pieces and the empty
string splits to `[""]`. -/
def splitOnChar (sep : Char) : List Char → List (List Char)
  | [] => [[]]
  | c :: rest =>
    match splitOnChar sep rest with
    | h :: t => if c = sep then [] :: h :: t else (c :: h) :: t
    | [] => [[c]]

/-- One `start-end` segment of a `:`…`;` block: split on `-`; a start the
host's `isNaN` rejects goes to `AsciiRangeNode` (a missing end making its
constructor call `charCodeAt` on `undefined`, a `TypeError`), any other
start goes through `parseInt` to `RangeNode` (with `parseInt(undefined) =
NaN` when no `-` was present). -/
def mkSegNode (rangeStr : String) : Except Err Node :=
  let parts := (splitOnChar '-' rangeStr.data).map String.mk
  let start := parts.headD ""
  let stop? := parts.get? 1
  if jsIsNaN start then
    match stop? with
    | none =>
      .error (.typeError "Cannot read properties of undefined (reading \x27charCodeAt\x27)")
    | some e => .ok (mkAsciiRange start e)
  else
    .ok (mkRange (jsParseInt start) (stop?.bind jsParseInt))

theorem consumeUntil_spec (endTokens : List Char) (st : PState) :
    ∀ out e st', consumeUntil endTokens st = .ok (out, e, st') →
      st.current < st'.current ∧ st'.current ≤ st.input.length + 2 ∧
      st'.input = st.input ∧ st'.stack = st.stack := by
  refine consumeUntil.induct endTokens
    (fun st => ∀ out e st', consumeUntil endTokens st = .ok (out, e, st') →
      st.current < st'.current ∧ st'.current ≤ st.input.length + 2 ∧
      st'.input = st.input ∧ st'.stack = st.stack) ?_ ?_ ?_ ?_ ?_ ?_ st
  · intro x h out e st' hok
    unfold consumeUntil at hok
    split at hok
    · exact Except.noConfusion hok
    · rename_i c heq
      rw [h] at heq
      exact Option.noConfusion heq
  · intro x c h hmem out e st' hok
    unfold consumeUntil at hok
    split at hok
    · rename_i heq
      rw [h] at heq
      exact Option.noConfusion heq
    · rename_i c' heq
      rw [h] at heq
      obtain rfl : c' = c := (Option.some.inj heq).symm
      rw [if_pos hmem] at hok
      simp only [Except.ok.injEq, Prod.mk.injEq] at hok
      obtain ⟨-, -, rfl⟩ := hok
      obtain ⟨hlt, -⟩ := List.get?_eq_some.mp h
      exact ⟨by simp [PState.bump], by simp [PState.bump]; omega, rfl, rfl⟩
  · intro x out' e' st' hrec h hmem ih out e st'' hok
    unfold consumeUntil at hok
    split at hok
    · rename_i heq
      rw [h] at heq
      exact Option.noConfusion heq
    · rename_i c' heq
      rw [h] at heq
      obtain rfl : c' = '\\' := (Option.some.inj heq).symm
      rw [if_neg hmem, if_pos rfl] at hok
      simp only [hrec, Except.ok.injEq, Prod.mk.injEq] at hok
      obtain ⟨-, -, rfl⟩ := hok
      obtain ⟨h1, h2, h3, h4⟩ := ih out' e' st' hrec
      obtain ⟨hlt, -⟩ := List.get?_eq_some.mp h
      simp [PState.bump] at h1 h2 h3 h4 ⊢
      exact ⟨by omega, by omega, h3, h4⟩
  · intro x err hrec h hmem ih out e st'' hok
    unfold consumeUntil at hok
    split at hok
    · rename_i heq
      rw [h] at heq
      exact Option.noConfusion heq
    · rename_i c' heq
      rw [h] at heq
      obtain rfl : c' = '\\' := (Option.some.inj heq).symm
      rw [if_neg hmem, if_pos rfl] at hok
      simp only [hrec] at hok
      exact Except.noConfusion hok
  · intro x c h hmem hne out' e' st' hrec ih out e st'' hok
    unfold consumeUntil at hok
    split at hok
    · rename_i heq
      rw [h] at heq
      exact Option.noConfusion heq
    · rename_i c' heq
      rw [h] at heq
      obtain rfl : c' = c := (Option.some.inj heq).symm
      rw [if_neg hmem, if_neg hne] at hok
      simp only [hrec, Except.ok.injEq, Prod.mk.injEq] at hok
      obtain ⟨-, -, rfl⟩ := hok
      obtain ⟨h1, h2, h3, h4⟩ := ih out' e' st' hrec
      obtain ⟨hlt, -⟩ := List.get?_eq_some.mp h
      simp [PState.bump] at h1 h2 h3 h4 ⊢
      exact ⟨by omega, by omega, h3, h4⟩
  · intro x c h hmem hne err hrec ih out e st'' hok
    unfold consumeUntil at hok
    split at hok
    · rename_i heq
      rw [h] at heq
      exact Option.noConfusion heq
    · rename_i c' heq
      rw [h] at heq
      obtain rfl : c' = c := (Option.some.inj heq).symm
      rw [if_neg hmem, if_neg hne] at hok
      simp only [hrec] at hok
      exact Except.noConfusion hok

end RNGzus

namespace RNGzus

/-- The do/while loop of the `:` range case: consume a segment up to `:`
or `;`, turn it into a node, push it (into the private range frame,
modelled by the accumulator), and repeat until the terminator was `;`. -/
def rangeLoop (st : PState) (acc : List Node) :
    Except Err (List Node × PState) :=
  match hc : consumeUntil [':', ';'] st with
  | .error e => .error e
  | .ok (rangeStr, endTok, st') =>
    match mkSegNode rangeStr with
    | .error e => .error e
    | .ok node =>
      if endTok = ';' then .ok (acc ++ [node], st')
      else rangeLoop st' (acc ++ [node])
  termination_by st.input.length + 2 - st.current
  decreasing_by
    simp_wf
    obtain ⟨h1, h2, h3, -⟩ := consumeUntil_spec [':', ';'] st _ _ _ hc
    rw [h3]
    omega

theorem rangeLoop_spec (st : PState) (acc : List Node) :
    ∀ segs st', rangeLoop st acc = .ok (segs, st') →
      st.current < st'.current ∧ st'.current ≤ st.input.length + 2 ∧
      st'.input = st.input ∧ st'.stack = st.stack := by
  refine rangeLoop.induct
    (fun st acc => ∀ segs st', rangeLoop st acc = .ok (segs, st') →
      st.current < st'.current ∧ st'.current ≤ st.input.length + 2 ∧
      st'.input = st.input ∧ st'.stack = st.stack) ?_ ?_ ?_ ?_ st acc
  · intro x acc' e hc segs st' hok
    unfold rangeLoop at hok
    split at hok
    · exact Except.noConfusion hok
    · rename_i rs et st1 heq
      rw [hc] at heq
      exact Except.noConfusion heq
  · intro x acc' rangeStr endTok st₁ hc e hseg segs st' hok
    unfold rangeLoop at hok
    split at hok
    · exact Except.noConfusion hok
    · rename_i rs et st1 heq
      rw [hc] at heq
      simp only [Except.ok.injEq, Prod.mk.injEq] at heq
      obtain ⟨rfl, rfl, rfl⟩ := heq
      simp [hseg] at hok
  · intro x acc' rangeStr st₁ node hseg hc segs st' hok
    unfold rangeLoop at hok
    split at hok
    · exact Except.noConfusion hok
    · rename_i rs et st1 heq
      rw [hc] at heq
      simp only [Except.ok.injEq, Prod.mk.injEq] at heq
      obtain ⟨rfl, rfl, rfl⟩ := heq
      simp only [hseg, if_true] at hok
      simp only [Except.ok.injEq, Prod.mk.injEq] at hok
      obtain ⟨-, rfl⟩ := hok
      exact consumeUntil_spec [':', ';'] x _ _ _ hc
  · intro x acc' rangeStr endTok st₁ hc node hseg hend ih segs st' hok
    unfold rangeLoop at hok
    split at hok
    · exact Except.noConfusion hok
    · rename_i rs et st1 heq
      rw [hc] at heq
      simp only [Except.ok.injEq, Prod.mk.injEq] at heq
      obtain ⟨rfl, rfl, rfl⟩ := heq
      simp only [hseg, if_neg hend] at hok
      obtain ⟨h1, h2, h3, h4⟩ := ih segs st' hok
      obtain ⟨g1, g2, g3, g4⟩ := consumeUntil_spec [':', ';'] x _ _ _ hc
      rw [g3] at h2 h3
      rw [g4] at h4
      exact ⟨by omega, by omega, h3, h4⟩

/-- The tail of the `:` case after the loop: pop the private range frame,
push the finalized group if it has more than one child, else its single
child.  (The loop always pushes at least one node before checking the
terminator, so the empty case is unreachable.) -/
def handleRange (st : PState) : Except Err PState :=
  match rangeLoop st [] with
  | .error e => .error e
  | .ok (segs, st') =>
    if segs.length > 1 then .ok (pushNode st' (Node.group 1 segs false))
    else
      match segs.head? with
      | some n => .ok (pushNode st' n)
      | none => .error (.typeError "unreachable: empty range block")

/-- `f.children[f.children.length - 1].setCount(n)` on one frame: `none`
when the frame has no child (`undefined.setCount` is a `TypeError`). -/
def bumpLast (f : Frame) (n : ℤ) : Option Frame :=
  match f.children.getLast? with
  | none => none
  | some last => some { f with children := f.children.dropLast ++ [last.setCount n] }

/-- The `<` case after its `consumeUntil('>')`: parse the content as an
integer (fault at the index of `<` when `NaN`), then `setCount` on
`this.lastNode`.  In `part_001` `lastNode` reads the innermost frame's
children (`this.currentNodeSet`); in `genpass.js` it reads `this.children`,
the root frame's list — the `rootLast` flag selects the copy. -/
def handleRepeat (rootLast : Bool) (head : ℕ) (numStr : String)
    (st : PState) : Except Err PState :=
  match jsParseInt numStr with
  | none => .error (.parseError "Repeat modifier must be a number" head)
  | some n =>
    if rootLast then
      match st.stack.getLast? with
      | none => .error (.typeError "Cannot read properties of undefined (reading \x27setCount\x27)")
      | some rootF =>
        match bumpLast rootF n with
        | none => .error (.typeError "Cannot read properties of undefined (reading \x27setCount\x27)")
        | some f' => .ok { st with stack := st.stack.dropLast ++ [f'] }
    else
      match st.stack with
      | [] => .error (.typeError "Cannot read properties of undefined (reading \x27setCount\x27)")
      | f :: rest =>
        match bumpLast f n with
        | none => .error (.typeError "Cannot read properties of undefined (reading \x27setCount\x27)")
        | some f' => .ok { st with stack := f' :: rest }

/-- Embeds `parseToken()`: read one character and dispatch.  The first
`switch` case compares the token against the current frame's close token;
the final wildcard (any unrecognized character) falls through the `switch`
and does nothing. -/
def parseToken (rootLast : Bool) (st : PState) : Except Err PState :=
  match st.input.get? st.current with
  | none => .ok (st.bump 1)
  | some token =>
    if topEnd st = some token then closeFrame (st.bump 1)
    else match token with
      | '.' => .ok (pushNode (st.bump 1) (Node.any 1))
      | 'a' => .ok (pushNode (st.bump 1) (mkAlpha false))
      | 'A' => .ok (pushNode (st.bump 1) (mkAlpha true))
      | '#' => .ok (pushNode (st.bump 1) (Node.numeric 1))
      | '@' => .ok (pushNode (st.bump 1) (Node.sampleSet 1 symbolSet))
      | '$' => .ok (pushNode (st.bump 1) (Node.sampleSet 1 basicSymbolSet))
      | '"' =>
        match consumeUntil ['"'] (st.bump 1) with
        | .error e => .error e
        | .ok (literal, _, st₂) => .ok (pushNode st₂ (Node.literal 1 literal))
      | '[' =>
        match consumeUntil [']'] (st.bump 1) with
        | .error e => .error e
        | .ok (sampleText, _, st₂) => .ok (pushNode st₂ (Node.sampleSet 1 sampleText))
      | '<' =>
        match consumeUntil ['>'] (st.bump 1) with
        | .error e => .error e
        | .ok (numStr, _, st₂) => handleRepeat rootLast st.current numStr st₂
      | ':' => handleRange (st.bump 1)
      | '(' => .ok (pushFrame (st.bump 1) (some ')') true)
      | '{' => .ok (pushFrame (st.bump 1) (some '}') false)
      | _ => .ok (st.bump 1)

end RNGzus

namespace RNGzus

theorem pushNode_current (st : PState) (n : Node) :
    (pushNode st n).current = st.current ∧ (pushNode st n).input = st.input := by
  unfold pushNode
  cases st.stack <;> simp

theorem closeFrame_spec {st st' : PState} (h : closeFrame st = .ok st') :
    st'.current = st.current ∧ st'.input = st.input := by
  unfold closeFrame at h
  split at h
  · exact Except.noConfusion h
  · split at h
    · exact Except.noConfusion h
    · obtain rfl := Except.ok.inj h
      exact ⟨rfl, rfl⟩

theorem handleRepeat_spec {rl : Bool} {head : ℕ} {numStr : String}
    {st st' : PState} (h : handleRepeat rl head numStr st = .ok st') :
    st'.current = st.current ∧ st'.input = st.input := by
  unfold handleRepeat at h
  split at h
  · exact Except.noConfusion h
  · split at h
    · split at h
      · exact Except.noConfusion h
      · split at h
        · exact Except.noConfusion h
        · obtain rfl := Except.ok.inj h
          exact ⟨rfl, rfl⟩
    · split at h
      · exact Except.noConfusion h
      · split at h
        · exact Except.noConfusion h
        · obtain rfl := Except.ok.inj h
          exact ⟨rfl, rfl⟩

theorem handleRange_spec {st st' : PState} (h : handleRange st = .ok st') :
    st.current < st'.current ∧ st'.input = st.input := by
  unfold handleRange at h
  split at h
  · exact Except.noConfusion h
  · rename_i segs st₁ heq
    obtain ⟨g1, -, g3, -⟩ := rangeLoop_spec st [] segs st₁ heq
    split at h
    · obtain rfl := Except.ok.inj h
      obtain ⟨p1, p2⟩ := pushNode_current st₁ _
      exact ⟨by rw [p1]; exact g1, by rw [p2]; exact g3⟩
    · split at h
      · obtain rfl := Except.ok.inj h
        obtain ⟨p1, p2⟩ := pushNode_current st₁ _
        exact ⟨by rw [p1]; exact g1, by rw [p2]; exact g3⟩
      · exact Except.noConfusion h

theorem parseToken_progress {rl : Bool} {st st' : PState}
    (h : parseToken rl st = .ok st') :
    st.current < st'.current ∧ st'.input = st.input := by
  unfold parseToken at h
  split at h
  · obtain rfl := Except.ok.inj h
    simp [PState.bump]
  · rename_i token heq
    split at h
    · obtain ⟨c1, c2⟩ := closeFrame_spec h
      simp [PState.bump] at c1 c2
      exact ⟨by omega, c2⟩
    · split at h
      case _ => -- '.'
        obtain rfl := Except.ok.inj h
        obtain ⟨p1, p2⟩ := pushNode_current (st.bump 1) _
        exact ⟨by rw [p1]; simp [PState.bump], by rw [p2]; rfl⟩
      case _ => -- 'a'
        obtain rfl := Except.ok.inj h
        obtain ⟨p1, p2⟩ := pushNode_current (st.bump 1) _
        exact ⟨by rw [p1]; simp [PState.bump], by rw [p2]; rfl⟩
      case _ => -- 'A'
        obtain rfl := Except.ok.inj h
        obtain ⟨p1, p2⟩ := pushNode_current (st.bump 1) _
        exact ⟨by rw [p1]; simp [PState.bump], by rw [p2]; rfl⟩
      case _ => -- '#'
        obtain rfl := Except.ok.inj h
        obtain ⟨p1, p2⟩ := pushNode_current (st.bump 1) _
        exact ⟨by rw [p1]; simp [PState.bump], by rw [p2]; rfl⟩
      case _ => -- '@'
        obtain rfl := Except.ok.inj h
        obtain ⟨p1, p2⟩ := pushNode_current (st.bump 1) _
        exact ⟨by rw [p1]; simp [PState.bump], by rw [p2]; rfl⟩
      case _ => -- '$'
        obtain rfl := Except.ok.inj h
        obtain ⟨p1, p2⟩ := pushNode_current (st.bump 1) _
        exact ⟨by rw [p1]; simp [PState.bump], by rw [p2]; rfl⟩
      case _ => -- '"'
        split at h
        · exact Except.noConfusion h
        · rename_i lit e2 st₂ hcu
          obtain rfl := Except.ok.inj h
          obtain ⟨g1, -, g3, -⟩ := consumeUntil_spec _ _ _ _ _ hcu
          obtain ⟨p1, p2⟩ := pushNode_current st₂ _
          simp [PState.bump] at g1 g3
          exact ⟨by rw [p1]; omega, by rw [p2]; exact g3⟩
      case _ => -- '['
        split at h
        · exact Except.noConfusion h
        · rename_i lit e2 st₂ hcu
          obtain rfl := Except.ok.inj h
          obtain ⟨g1, -, g3, -⟩ := consumeUntil_spec _ _ _ _ _ hcu
          obtain ⟨p1, p2⟩ := pushNode_current st₂ _
          simp [PState.bump] at g1 g3
          exact ⟨by rw [p1]; omega, by rw [p2]; exact g3⟩
      case _ => -- '<'
        split at h
        · exact Except.noConfusion h
        · rename_i numStr e2 st₂ hcu
          obtain ⟨r1, r2⟩ := handleRepeat_spec h
          obtain ⟨g1, -, g3, -⟩ := consumeUntil_spec _ _ _ _ _ hcu
          simp [PState.bump] at g1 g3
          exact ⟨by omega, by rw [r2]; exact g3⟩
      case _ => -- ':'
        obtain ⟨r1, r2⟩ := handleRange_spec h
        simp [PState.bump] at r1 r2
        exact ⟨by omega, r2⟩
      case _ => -- '('
        obtain rfl := Except.ok.inj h
        simp [pushFrame, PState.bump]
      case _ => -- '{'
        obtain rfl := Except.ok.inj h
        simp [pushFrame, PState.bump]
      case _ => -- default
        obtain rfl := Except.ok.inj h
        simp [PState.bump]

/-- The `while (this.current < this.input.length) this.parseToken()` loop. -/
def parseLoop (rootLast : Bool) (st : PState) : Except Err PState :=
  if hguard : st.current < st.input.length then
    match hp : parseToken rootLast st with
    | .error e => .error e
    | .ok st' => parseLoop rootLast st'
  else .ok st
  termination_by st.input.length - st.current
  decreasing_by
    simp_wf
    obtain ⟨h1, h2⟩ := parseToken_progress hp
    rw [h2]
    omega

/-- Template rendering of the close token in the EOF message
(`'${undefined}'` prints as `'undefined'`). -/
def endTokenText : Option Char → String
  | some c => String.singleton c
  | none => "undefined"

/-- Embeds `Parser.parse(str)`: scan from the initial state (one implicit
root frame, a sequential group with no close token), fault if a nested
frame is still open at EOF, and wrap the root frame's children in a
`RootNode` (a sequential `GroupNode`).  The `rootLast` flag selects which
copy's `lastNode` getter the `<` handler uses. -/
def parseWith (rootLast : Bool) (str : String) : Except Err Node :=
  match parseLoop rootLast ⟨str.data, 0, [⟨none, true, []⟩]⟩ with
  | .error e => .error e
  | .ok st =>
    if st.stack.length > 1 then
      .error (.parseError
        ("Expected \x27" ++ endTokenText (topEnd st) ++ "\x27 but got EOF") st.current)
    else
      match st.stack.getLast? with
      | some rootF => .ok (Node.group 1 rootF.children true)
      | none => .error (.typeError "unreachable: missing root frame")

/-- `new Parser().parse(str)` of `part_001`. -/
def parse (str : String) : Except Err Node := parseWith false str

/-- How an evaluation outcome appears in `compiled + '\n' + output`:
a string as itself, `undefined` as the text `"undefined"`, a caught
exception as its message (the inner try/catch of `part_001`). -/
def evalDisplay (r : Except Err (Option String × ℕ)) : String :=
  match r with
  | .ok (v, _) => v.getD "undefined"
  | .error ex => ex.message

/-- Embeds `parseRepl(str)` of `part_001` (the Compiler/Executor entry,
`compileAndRun` of the spec): parse, lower, evaluate the lowered
expression (its faults caught locally and shown as the output), and report
`true`; on a parse-stage exception, render a caret line for a `ParseError`
(nothing for an unclassified error) and report `false`. -/
def parseRepl (str : String) (s : Stream32) : String × Bool :=
  match parse str with
  | .ok tree =>
    (compile tree ++ "\n" ++ evalDisplay (evalE (compileE tree) s 0), true)
  | .error ex =>
    let arrow := match ex.index with
      | some i => String.mk (List.replicate (i + 4) ' ') ++ "^\n"
      | none => ""
    (arrow ++ ex.message, false)

namespace Genpass

/-- `new Parser().parse(str)` of `src/genpass.js` (root-frame `lastNode`). -/
def parse (str : String) : Except Err Node := parseWith true str

/-- Embeds `parseRepl(str)` of `src/genpass.js`: no inner try/catch, so an
evaluation fault reaches the same handler as parse faults, which reads
`ex.index` (`undefined` on non-`ParseError` exceptions: `" ".repeat(NaN)`
is empty) and reports `false`. -/
def parseRepl (str : String) (s : Stream32) : String × Bool :=
  let run : Except Err String :=
    match parse str with
    | .error e => .error e
    | .ok tree =>
      match evalResult tree s with
      | .error e => .error e
      | .ok (v, _) => .ok (compile tree ++ "\n" ++ v.getD "undefined")
  match run with
  | .ok out => (out, true)
  | .error ex =>
    let arrow := match ex.index with
      | some i => String.mk (List.replicate (i + 4) ' ') ++ "^"
      | none => "^"
    (arrow ++ "\n" ++ ex.message, false)

end Genpass

end RNGzus

namespace RNGzus

theorem substring_chop (x : String) :
    jsSubstring0 (x ++ ".toString()") ((x ++ ".toString()").length - 11) = x := by
  have hl : (x ++ ".toString()").length = x.length + 11 := by
    rw [String.length_append]
    rfl
  rw [hl, Nat.add_sub_cancel]
  unfold jsSubstring0
  have : (x ++ ".toString()").data.take x.length = x.data := by
    rw [String.data_append]
    have hx : x.length = x.data.length := rfl
    rw [hx]
    exact List.take_left x.data _
  rw [this]

mutual

theorem compile_render (t : Node) : compile t = render (compileE t) := by
  unfold compile compileE
  by_cases h : t.count > 1
  · simp only [if_pos h]
    unfold render
    rw [compileSingle_render t]
  · simp only [if_neg h]
    exact compileSingle_render t
  termination_by (sizeOf t, 1)

theorem compileSingle_render (t : Node) :
    compileSingle t = render (compileSingleE t) := by
  match t with
  | .literal c s => unfold compileSingle compileSingleE render; rfl
  | .sampleSet c s => unfold compileSingle compileSingleE render; rfl
  | .any c => unfold compileSingle compileSingleE render; rfl
  | .numeric c => unfold compileSingle compileSingleE render; rfl
  | .range c a b => unfold compileSingle compileSingleE render; rfl
  | .asciiRange c a b =>
    unfold compileSingle compileSingleE render
    simp only [Bool.false_eq_true, if_false]
    rw [show (").toString()" : String) = ")" ++ ".toString()" from rfl]
    rw [show ("String.fromCharCode(randRange(" : String) =
      "String.fromCharCode(" ++ "randRange(" from rfl]
    rw [show ("))" : String) = ")" ++ ")" from rfl]
    rw [← String.append_assoc ("randRange(" ++ jsToString a ++ "," ++ jsToString b)]
    rw [substring_chop]
    simp only [String.append_assoc]
  | .group c children sequential =>
    unfold compileSingle compileSingleE
    rw [compileList_render children]
    cases sequential
    · simp only [Bool.false_eq_true, if_false]
      unfold render
      rw [show ("sample([" : String) = "sample(" ++ "[" from rfl]
      rw [show ("])" : String) = "]" ++ ")" from rfl]
      simp only [String.append_assoc]
    · simp only [if_true]
      unfold render
      rw [show ("].join(\x27\x27)" : String) = "]" ++ ".join(\x27\x27)" from rfl]
      simp only [String.append_assoc]
  termination_by (sizeOf t, 0)

theorem compileList_render (ts : List Node) :
    compileList ts = renderList (compileEList ts) := by
  match ts with
  | [] => simp only [compileList, compileEList, renderList]
  | [t] =>
    simp only [compileList, compileEList, renderList]
    exact compile_render t
  | t :: t' :: rest =>
    simp only [compileList, compileEList, renderList]
    rw [compile_render t]
    have h := compileList_render (t' :: rest)
    simp only [compileEList] at h
    rw [h]
  termination_by (sizeOf ts, 0)

end

end RNGzus

namespace RNGzus

theorem parseLoop_unfold (rl : Bool) (st : PState) :
    parseLoop rl st = if st.current < st.input.length then
      (match parseToken rl st with
       | .error e => .error e
       | .ok st' => parseLoop rl st') else .ok st := by
  conv_lhs => rw [parseLoop.eq_def]
  by_cases h : st.current < st.input.length
  · rw [dif_pos h, if_pos h]
    cases hpt : parseToken rl st <;> simp only [hpt]
  · rw [dif_neg h, if_neg h]

theorem rangeLoop_unfold (st : PState) (acc : List Node) :
    rangeLoop st acc =
      match consumeUntil [':', ';'] st with
      | .error e => .error e
      | .ok (rangeStr, endTok, st') =>
        match mkSegNode rangeStr with
        | .error e => .error e
        | .ok node =>
          if endTok = ';' then .ok (acc ++ [node], st')
          else rangeLoop st' (acc ++ [node]) := by
  conv_lhs => rw [rangeLoop.eq_def]
  cases hc : consumeUntil [':', ';'] st with
  | error e => simp only [hc]
  | ok r =>
    obtain ⟨rangeStr, endTok, st'⟩ := r
    simp only [hc]

end RNGzus

namespace RNGzus

/-- The all-zero entropy stream (every draw lands at the low end). -/
def zeroStream : Stream32 := fun _ => 0

/-- The stream of words one below the extreme `0xffffffff` (every draw
lands at the top of the intended range). -/
def nearMaxStream : Stream32 := fun _ => 4294967294

end RNGzus

namespace RNGzus

/-- Claim C1: the contract says `randRange(min, max)` returns `min ≤ i <
max` and never returns `max`; but the source divides the 32-bit entropy
word by `0xffffffff`, so the word `0xffffffff` makes `rnd = 1` and the
function returns `max` itself: at `min = 0`, `max = 1` the result is `1`. -/
theorem C1_randRange_returns_max :
    randRange 0 1 4294967295 = 1 ∧ ¬ randRange 0 1 4294967295 < 1 := by
  decide

/-- Claim C2: the `Any` node's `generate()` draws from `randRange(32, 127)`
but its lowering emits `randRange(32, 172)` (a 127/172 digit
transposition), so on the same entropy word `0xfffffffe` the direct
generation yields character 126 while the evaluated lowered source yields
character 171 — outside the ASCII range `[32,127)` entirely. -/
theorem C2_any_lowering_draws_wrong_range :
    compileSingle (Node.any 1) = "String.fromCharCode(randRange(32, 172))" ∧
    generate (Node.any 1) nearMaxStream 0 =
      .ok ⟨some (String.singleton (Char.ofNat 126)), 1, [(some 32, some 127)]⟩ ∧
    evalE (compileSingleE (Node.any 1)) nearMaxStream 0 =
      .ok (some (String.singleton (Char.ofNat 171)), 1) ∧
    ¬ (32 ≤ 171 ∧ 171 < 127) := by
  refine ⟨?_, ?_, ?_, by decide⟩
  · simp [compileSingle]
  · simp [generate, word, nearMaxStream, randRange, fromCharCode]
  · simp [compileSingleE, evalE, word, nearMaxStream, randRangeN, randRange, fromCharCode]

end RNGzus

namespace RNGzus

set_option maxRecDepth 8000

/-- A `randRange(min, max)` call obeying the spec's precondition
`max > min` (with both bounds actual numbers, not `NaN`). -/
def goodCall (c : Option ℤ × Option ℤ) : Prop :=
  ∃ a b, c = (some a, some b) ∧ a < b

/-- Claim C3 counterexample. -/
theorem C3_cex :
    parse "\"ab\"<3>" = .ok (Node.group 1 [Node.literal 3 "ab"] true) ∧
    Genpass.compile (Node.literal 3 "ab") = "\"ab\"" ∧
    Genpass.compileE (Node.literal 3 "ab") = some (.strLit "ab") ∧
    evalE (.strLit "ab") zeroStream 0 = .ok (some "ab", 0) ∧
    ("ab" : String) ≠ "ab" ++ "ab" ++ "ab" := by
  refine ⟨?_, ?_, ?_, ?_, by decide⟩
  · unfold parse parseWith
    rw [parseLoop_unfold]
    simp [parseToken, topEnd, pushNode, pushFrame, closeFrame, PState.bump,
      consumeUntil, expectedMsg, handleRange, rangeLoop_unfold, handleRepeat,
      bumpLast, mkSegNode, splitOnChar, jsIsNaN, decimalBody, isDigit, isJsSpace,
      isHexDigit, jsParseInt, digitsToNat, mkRange, mkAsciiRange, mkAlpha,
      charCodeAt0, String.append, String.singleton, String.push, String.ext_iff,
      Node.setCount, lowerAlpha, upperAlpha, symbolSet, basicSymbolSet]
    rw [parseLoop_unfold]
    simp [parseToken, topEnd, pushNode, pushFrame, closeFrame, PState.bump,
      consumeUntil, expectedMsg, handleRange, rangeLoop_unfold, handleRepeat,
      bumpLast, mkSegNode, splitOnChar, jsIsNaN, decimalBody, isDigit, isJsSpace,
      isHexDigit, jsParseInt, digitsToNat, mkRange, mkAsciiRange, mkAlpha,
      charCodeAt0, String.append, String.singleton, String.push, String.ext_iff,
      Node.setCount, lowerAlpha, upperAlpha, symbolSet, basicSymbolSet]
    rw [parseLoop_unfold]
    simp [topEnd]
  · simp [Genpass.compile, escapeLit]
  · simp [Genpass.compileE]
  · simp [evalE]

end RNGzus

namespace RNGzus

/-- Claim C4 counterexample. -/
theorem C4_cex :
    parse ":1-2:4-5;" = .ok (Node.group 1 [Node.group 1
      [Node.range 1 (some 1) (some 3), Node.range 1 (some 4) (some 6)] false] true) ∧
    process (Node.group 1 [Node.group 1
      [Node.range 1 (some 1) (some 3), Node.range 1 (some 4) (some 6)] false] true)
      zeroStream 0 = .ok ⟨"1", 2, [(some 0, some 2), (some 1, some 3)]⟩ ∧
    ("1" : String).length = 1 := by
  refine ⟨?_, ?_, by decide⟩
  · unfold parse parseWith
    rw [parseLoop_unfold]
    simp [parseToken, topEnd, pushNode, pushFrame, closeFrame, PState.bump,
      consumeUntil, expectedMsg, handleRange, rangeLoop_unfold, handleRepeat,
      bumpLast, mkSegNode, splitOnChar, jsIsNaN, decimalBody, isDigit, isJsSpace,
      isHexDigit, jsParseInt, digitsToNat, mkRange, mkAsciiRange, mkAlpha,
      charCodeAt0, String.append, String.singleton, String.push, String.ext_iff,
      Node.setCount, lowerAlpha, upperAlpha, symbolSet, basicSymbolSet]
    rw [parseLoop_unfold]
    simp [topEnd]
  · simp [process, processF, genRepeat, generate, processChildren, sample, word,
      randRange, randRangeN, joinUndef, Node.count, String.join, bind, Except.bind,
      jsToString, fromCharCode, zeroStream, String.ext_iff, String.append,
      String.singleton, String.push]
    decide

/-- Claim C5 counterexample. -/
theorem C5_cex :
    parse "a<0>" = .ok (Node.group 1 [Node.sampleSet 0 lowerAlpha] true) ∧
    (Node.sampleSet 0 lowerAlpha).count < 1 := by
  refine ⟨?_, by decide⟩
  unfold parse parseWith
  rw [parseLoop_unfold]
  simp [parseToken, topEnd, pushNode, pushFrame, closeFrame, PState.bump,
    consumeUntil, expectedMsg, handleRange, rangeLoop_unfold, handleRepeat,
    bumpLast, mkSegNode, splitOnChar, jsIsNaN, decimalBody, isDigit, isJsSpace,
    isHexDigit, jsParseInt, digitsToNat, mkRange, mkAsciiRange, mkAlpha,
    charCodeAt0, String.append, String.singleton, String.push, String.ext_iff,
    Node.setCount, lowerAlpha, upperAlpha, symbolSet, basicSymbolSet]
  rw [parseLoop_unfold]
  simp [parseToken, topEnd, pushNode, pushFrame, closeFrame, PState.bump,
    consumeUntil, expectedMsg, handleRange, rangeLoop_unfold, handleRepeat,
    bumpLast, mkSegNode, splitOnChar, jsIsNaN, decimalBody, isDigit, isJsSpace,
    isHexDigit, jsParseInt, digitsToNat, mkRange, mkAsciiRange, mkAlpha,
    charCodeAt0, String.append, String.singleton, String.push, String.ext_iff,
    Node.setCount, lowerAlpha, upperAlpha, symbolSet, basicSymbolSet]
  rw [parseLoop_unfold]
  simp [topEnd]

/-- Claim C8 counterexample. -/
theorem C8_cex :
    parse "<3>" =
      .error (.typeError "Cannot read properties of undefined (reading \x27setCount\x27)") ∧
    Err.index (.typeError "Cannot read properties of undefined (reading \x27setCount\x27)")
      = none := by
  refine ⟨?_, rfl⟩
  unfold parse parseWith
  rw [parseLoop_unfold]
  simp [parseToken, topEnd, pushNode, pushFrame, closeFrame, PState.bump,
    consumeUntil, expectedMsg, handleRange, rangeLoop_unfold, handleRepeat,
    bumpLast, mkSegNode, splitOnChar, jsIsNaN, decimalBody, isDigit, isJsSpace,
    isHexDigit, jsParseInt, digitsToNat, mkRange, mkAsciiRange, mkAlpha,
    charCodeAt0, String.append, String.singleton, String.push, String.ext_iff,
    Node.setCount, lowerAlpha, upperAlpha, symbolSet, basicSymbolSet]

/-- Claim C9 counterexample. -/
theorem C9_cex :
    parse "[]" = .ok (Node.group 1 [Node.sampleSet 1 ""] true) ∧
    process (Node.group 1 [Node.sampleSet 1 ""] true) zeroStream 0 =
      .ok ⟨"", 1, [(some 0, some 0)]⟩ ∧
    ¬ goodCall (some 0, some 0) := by
  refine ⟨?_, ?_, ?_⟩
  · unfold parse parseWith
    rw [parseLoop_unfold]
    simp [parseToken, topEnd, pushNode, pushFrame, closeFrame, PState.bump,
      consumeUntil, expectedMsg, handleRange, rangeLoop_unfold, handleRepeat,
      bumpLast, mkSegNode, splitOnChar, jsIsNaN, decimalBody, isDigit, isJsSpace,
      isHexDigit, jsParseInt, digitsToNat, mkRange, mkAsciiRange, mkAlpha,
      charCodeAt0, String.append, String.singleton, String.push, String.ext_iff,
      Node.setCount, lowerAlpha, upperAlpha, symbolSet, basicSymbolSet]
    rw [parseLoop_unfold]
    simp [topEnd]
  · simp [process, processF, genRepeat, generate, processChildren, sample, word,
      randRange, randRangeN, joinUndef, Node.count, String.join, bind, Except.bind,
      jsToString, fromCharCode, zeroStream, String.ext_iff, String.append,
      String.singleton, String.push]
  · rintro ⟨a, b, hab, hlt⟩
    simp at hab
    obtain ⟨h1, h2⟩ := hab
    omega

/-- Claim C10 counterexample. -/
theorem C10_cex :
    parse ":0-10;" = .ok (Node.group 1 [Node.range 1 (some 0) (some 11)] true) ∧
    process (Node.group 1 [Node.range 1 (some 0) (some 11)] true) zeroStream 0 =
      .ok ⟨"0", 1, [(some 0, some 11)]⟩ ∧
    process (Node.group 1 [Node.range 1 (some 0) (some 11)] true) nearMaxStream 0 =
      .ok ⟨"10", 1, [(some 0, some 11)]⟩ ∧
    ("0" : String).length ≠ ("10" : String).length := by
  refine ⟨?_, ?_, ?_, by decide⟩
  · unfold parse parseWith
    rw [parseLoop_unfold]
    simp [parseToken, topEnd, pushNode, pushFrame, closeFrame, PState.bump,
      consumeUntil, expectedMsg, handleRange, rangeLoop_unfold, handleRepeat,
      bumpLast, mkSegNode, splitOnChar, jsIsNaN, decimalBody, isDigit, isJsSpace,
      isHexDigit, jsParseInt, digitsToNat, mkRange, mkAsciiRange, mkAlpha,
      charCodeAt0, String.append, String.singleton, String.push, String.ext_iff,
      Node.setCount, lowerAlpha, upperAlpha, symbolSet, basicSymbolSet]
    rw [parseLoop_unfold]
    simp [topEnd]
  · simp [process, processF, genRepeat, generate, processChildren, sample, word,
      randRange, randRangeN, joinUndef, Node.count, String.join, bind, Except.bind,
      jsToString, fromCharCode, zeroStream, String.ext_iff, String.append,
      String.singleton, String.push]
    decide
  · simp [process, processF, genRepeat, generate, processChildren, sample, word,
      randRange, randRangeN, joinUndef, Node.count, String.join, bind, Except.bind,
      jsToString, fromCharCode, nearMaxStream, String.ext_iff, String.append,
      String.singleton, String.push]
    decide

end RNGzus

namespace RNGzus

/-- Claim C6 counterexample. -/
theorem C6_cex :
    parse "a<2>" = .ok (Node.group 1 [Node.sampleSet 2 lowerAlpha] true) ∧
    Genpass.parse "a<2>" = .ok (Node.group 1 [Node.sampleSet 2 lowerAlpha] true) ∧
    compile (Node.group 1 [Node.sampleSet 2 lowerAlpha] true) =
      "[Array(2).fill(0).map(_=>sample(\"abcdefghijklmnopqrstuvwxyz\")).join(\x27\x27)].join(\x27\x27)" ∧
    Genpass.compile (Node.group 1 [Node.sampleSet 2 lowerAlpha] true) =
      "[sample(\"abcdefghijklmnopqrstuvwxyz\")].join(\x27\x27)" ∧
    evalE (compileE (Node.group 1 [Node.sampleSet 2 lowerAlpha] true)) zeroStream 0 =
      .ok (some "aa", 2) ∧
    Genpass.evalResult (Node.group 1 [Node.sampleSet 2 lowerAlpha] true) zeroStream =
      .ok (some "a", 1) ∧
    ("aa" : String) ≠ "a" := by
  refine ⟨?_, ?_, ?_, ?_, ?_, ?_, by decide⟩
  · unfold parse parseWith
    rw [parseLoop_unfold]
    simp [parseToken, topEnd, pushNode, pushFrame, closeFrame, PState.bump,
      consumeUntil, expectedMsg, handleRange, rangeLoop_unfold, handleRepeat,
      bumpLast, mkSegNode, splitOnChar, jsIsNaN, decimalBody, isDigit, isJsSpace,
      isHexDigit, jsParseInt, digitsToNat, mkRange, mkAsciiRange, mkAlpha,
      charCodeAt0, String.append, String.singleton, String.push, String.ext_iff,
      Node.setCount, lowerAlpha, upperAlpha, symbolSet, basicSymbolSet]
    rw [parseLoop_unfold]
    simp [parseToken, topEnd, pushNode, pushFrame, closeFrame, PState.bump,
      consumeUntil, expectedMsg, handleRange, rangeLoop_unfold, handleRepeat,
      bumpLast, mkSegNode, splitOnChar, jsIsNaN, decimalBody, isDigit, isJsSpace,
      isHexDigit, jsParseInt, digitsToNat, mkRange, mkAsciiRange, mkAlpha,
      charCodeAt0, String.append, String.singleton, String.push, String.ext_iff,
      Node.setCount, lowerAlpha, upperAlpha, symbolSet, basicSymbolSet]
    rw [parseLoop_unfold]
    simp [topEnd]
  · unfold Genpass.parse parseWith
    rw [parseLoop_unfold]
    simp [parseToken, topEnd, pushNode, pushFrame, closeFrame, PState.bump,
      consumeUntil, expectedMsg, handleRange, rangeLoop_unfold, handleRepeat,
      bumpLast, mkSegNode, splitOnChar, jsIsNaN, decimalBody, isDigit, isJsSpace,
      isHexDigit, jsParseInt, digitsToNat, mkRange, mkAsciiRange, mkAlpha,
      charCodeAt0, String.append, String.singleton, String.push, String.ext_iff,
      Node.setCount, lowerAlpha, upperAlpha, symbolSet, basicSymbolSet]
    rw [parseLoop_unfold]
    simp [parseToken, topEnd, pushNode, pushFrame, closeFrame, PState.bump,
      consumeUntil, expectedMsg, handleRange, rangeLoop_unfold, handleRepeat,
      bumpLast, mkSegNode, splitOnChar, jsIsNaN, decimalBody, isDigit, isJsSpace,
      isHexDigit, jsParseInt, digitsToNat, mkRange, mkAsciiRange, mkAlpha,
      charCodeAt0, String.append, String.singleton, String.push, String.ext_iff,
      Node.setCount, lowerAlpha, upperAlpha, symbolSet, basicSymbolSet]
    rw [parseLoop_unfold]
    simp [topEnd]
  · simp [compile, compileSingle, compileList, escapeLit, Node.count, lowerAlpha]
    decide
  · simp [Genpass.compile, Genpass.compileList, escapeLit, lowerAlpha]
  · simp [compileE, compileSingleE, compileEList, evalE, evalList, evalRepeat,
      Node.count, sample, word, randRange, joinUndef, zeroStream, lowerAlpha,
      bind, Except.bind, String.ext_iff, String.append, String.singleton, String.push]
  · simp [Genpass.evalResult, Genpass.compileE, Genpass.compileEList, evalE, evalList,
      evalRepeat, sample, word, randRange, joinUndef, zeroStream, lowerAlpha,
      bind, Except.bind, String.ext_iff, String.append, String.singleton, String.push]

end RNGzus

namespace RNGzus

/-- Claim C7 counterexample. -/
theorem C7_cex :
    Genpass.parse ":a-c;" =
      .ok (Node.group 1 [Node.asciiRange 1 (some 97) (some 100)] true) ∧
    Genpass.parseRepl ":a-c;" zeroStream =
      ("^\n" ++ "Unexpected token \x27)\x27", false) ∧
    parseRepl ":a-c;" zeroStream =
      ("[String.fromCharCode(randRange(97,100))].join(\x27\x27)" ++ "\n" ++ "a", true) := by
  have hgp : Genpass.parse ":a-c;" =
      .ok (Node.group 1 [Node.asciiRange 1 (some 97) (some 100)] true) := by
    unfold Genpass.parse parseWith
    rw [parseLoop_unfold]
    simp [parseToken, topEnd, pushNode, pushFrame, closeFrame, PState.bump,
      consumeUntil, expectedMsg, handleRange, rangeLoop_unfold, handleRepeat,
      bumpLast, mkSegNode, splitOnChar, jsIsNaN, decimalBody, isDigit, isJsSpace,
      isHexDigit, jsParseInt, digitsToNat, mkRange, mkAsciiRange, mkAlpha,
      charCodeAt0, String.append, String.singleton, String.push, String.ext_iff,
      Node.setCount, lowerAlpha, upperAlpha, symbolSet, basicSymbolSet]
    rw [parseLoop_unfold]
    simp [topEnd]
  have hp : parse ":a-c;" =
      .ok (Node.group 1 [Node.asciiRange 1 (some 97) (some 100)] true) := by
    unfold parse parseWith
    rw [parseLoop_unfold]
    simp [parseToken, topEnd, pushNode, pushFrame, closeFrame, PState.bump,
      consumeUntil, expectedMsg, handleRange, rangeLoop_unfold, handleRepeat,
      bumpLast, mkSegNode, splitOnChar, jsIsNaN, decimalBody, isDigit, isJsSpace,
      isHexDigit, jsParseInt, digitsToNat, mkRange, mkAsciiRange, mkAlpha,
      charCodeAt0, String.append, String.singleton, String.push, String.ext_iff,
      Node.setCount, lowerAlpha, upperAlpha, symbolSet, basicSymbolSet]
    rw [parseLoop_unfold]
    simp [topEnd]
  refine ⟨hgp, ?_, ?_⟩
  · unfold Genpass.parseRepl
    rw [hgp]
    simp [Genpass.evalResult, Genpass.compileE, Genpass.compileEList, Err.index,
      Err.message, bind, Except.bind]
  · unfold parseRepl
    rw [hp]
    simp [compile, compileSingle, compileList, compileE, compileSingleE,
      compileEList, Node.count, evalDisplay, evalE, evalList, evalRepeat,
      jsToString, jsSubstring0, randRangeN, randRange, word, zeroStream,
      fromCharCode, sample, joinUndef, bind, Except.bind, jsParseInt, isDigit,
      isJsSpace, digitsToNat, String.ext_iff, String.append, String.singleton,
      String.push]
    decide

end RNGzus

namespace RNGzus

mutual

/-- Whether every repeat count in a tree is at most 1 (so the repetition
wrapper never fires). -/
def countsLe1 : Node → Bool
  | .group c ch _ => decide (c ≤ 1) && countsLe1List ch
  | t => decide (t.count ≤ 1)
  termination_by t => sizeOf t

/-- `countsLe1` over a child list. -/
def countsLe1List : List Node → Bool
  | [] => true
  | t :: rest => countsLe1 t && countsLe1List rest
  termination_by ts => sizeOf ts

end

mutual

/-- Whether a tree is free of `AsciiRange` nodes (whose genpass lowering
is malformed). -/
def noAsciiRange : Node → Bool
  | .group _ ch _ => noAsciiRangeList ch
  | .asciiRange _ _ _ => false
  | _ => true
  termination_by t => sizeOf t

/-- `noAsciiRange` over a child list. -/
def noAsciiRangeList : List Node → Bool
  | [] => true
  | t :: rest => noAsciiRange t && noAsciiRangeList rest
  termination_by ts => sizeOf ts

end

theorem countsLe1_count {t : Node} (h : countsLe1 t = true) : t.count ≤ 1 := by
  cases t <;> simp [countsLe1, Node.count] at h ⊢ <;> try exact h
  exact h.1

mutual

theorem compile_eq_genpass (t : Node) (h1 : countsLe1 t = true)
    (h2 : noAsciiRange t = true) : compile t = Genpass.compile t := by
  have hc : ¬ t.count > 1 := by
    have := countsLe1_count h1
    omega
  rw [compile.eq_def, if_neg hc]
  match t with
  | .literal c s => simp [compileSingle, Genpass.compile]
  | .sampleSet c s => simp [compileSingle, Genpass.compile]
  | .any c => simp [compileSingle, Genpass.compile]
  | .numeric c => simp [compileSingle, Genpass.compile]
  | .range c a b => simp [compileSingle, Genpass.compile]
  | .asciiRange c a b => simp [noAsciiRange] at h2
  | .group c ch sq =>
    have hl1 : countsLe1List ch = true := by
      simp [countsLe1] at h1
      exact h1.2
    have hl2 : noAsciiRangeList ch = true := by
      simpa [noAsciiRange] using h2
    rw [compileSingle.eq_def, Genpass.compile.eq_def]
    dsimp only
    rw [compileList_eq_genpass ch hl1 hl2]
  termination_by (sizeOf t, 1)

theorem compileList_eq_genpass (ts : List Node) (h1 : countsLe1List ts = true)
    (h2 : noAsciiRangeList ts = true) : compileList ts = Genpass.compileList ts := by
  match ts with
  | [] => simp [compileList, Genpass.compileList]
  | [t] =>
    simp only [countsLe1List, Bool.and_eq_true] at h1
    simp only [noAsciiRangeList, Bool.and_eq_true] at h2
    simp only [compileList, Genpass.compileList]
    exact compile_eq_genpass t h1.1 h2.1
  | t :: t' :: rest =>
    simp only [countsLe1List, Bool.and_eq_true] at h1
    simp only [noAsciiRangeList, Bool.and_eq_true] at h2
    simp only [compileList, Genpass.compileList]
    rw [compile_eq_genpass t h1.1 h2.1]
    have h := compileList_eq_genpass (t' :: rest) (by simp [countsLe1List, h1.2])
      (by simp [noAsciiRangeList, h2.2])
    simp only [Genpass.compileList] at h
    rw [← h]
  termination_by (sizeOf ts, 0)

end

theorem substring_chop10 (x : String) :
    jsSubstring0 (x ++ ".toString()") ((x ++ ".toString()").length - 10) = x ++ "." := by
  have hl : (x ++ ".toString()").length = x.length + 11 := by
    rw [String.length_append]
    rfl
  rw [hl]
  have h10 : x.length + 11 - 10 = x.length + 1 := by omega
  rw [h10]
  unfold jsSubstring0
  have hx : x.length = x.data.length := rfl
  have : (x ++ ".toString()").data.take (x.length + 1) = x.data ++ ['.'] := by
    rw [String.data_append, hx]
    rw [List.take_append]
    rfl
  rw [this]
  rfl

theorem genpass_setCount_invisible (t : Node) (c : ℤ) :
    Genpass.compile (t.setCount c) = Genpass.compile t := by
  cases t <;> simp [Node.setCount, Genpass.compile]

end RNGzus

namespace RNGzus

/-- Claim C3 (amended): in `part_001`, `compile` emits the bare atomic
expression when `count ≤ 1`, and for `count > 1` emits the rendered
repetition wrapper; evaluating that wrapper joins `count` independent
atomic evaluations when `count` is a valid array length (`count < 2^32`),
and throws the host `RangeError` for `count ≥ 2^32` (such counts are
reachable, `parseInt` being unbounded).  In `genpass.js`, `compile`
ignores the repeat count altogether. -/
theorem C3_amended : ∀ (t : Node) (c : ℤ) (s : Stream32) (p : ℕ),
    (t.count ≤ 1 → compile t = compileSingle t) ∧
    (1 < t.count →
      compile t = render (.repeatMap t.count (compileSingleE t)) ∧
      (t.count < 4294967296 →
        evalE (compileE t) s p =
          (evalRepeat (fun q => evalE (compileSingleE t) s q) t.count.toNat p).map
            (fun r => (some (joinUndef r.1), r.2))) ∧
      (4294967296 ≤ t.count →
        evalE (compileE t) s p = .error (.rangeError "Invalid array length"))) ∧
    Genpass.compile (t.setCount c) = Genpass.compile t := by
  intro t c s p
  refine ⟨?_, ?_, genpass_setCount_invisible t c⟩
  · intro h
    rw [compile.eq_def, if_neg (by omega)]
  · intro h
    refine ⟨?_, ?_, ?_⟩
    · rw [compile.eq_def, if_pos h]
      rw [render.eq_def]
      rw [compileSingle_render t]
    · intro hub
      rw [compileE.eq_def, if_pos h]
      rw [evalE.eq_def]
      dsimp only
      rw [if_neg (by omega : ¬ (t.count < 0 ∨ 4294967296 ≤ t.count))]
      cases hr : evalRepeat (fun q => evalE (compileSingleE t) s q) t.count.toNat p with
      | ok r =>
        obtain ⟨vs, p'⟩ := r
        simp [hr, Except.map, bind, Except.bind]
      | error e => simp [hr, Except.map, bind, Except.bind]
    · intro hub
      rw [compileE.eq_def, if_pos h]
      rw [evalE.eq_def]
      dsimp only
      rw [if_pos (Or.inr hub)]

/-- Claim C3 witness. -/
theorem C3_amended_witness :
    compile (Node.literal 2 "x") = render (.repeatMap 2 (compileSingleE (Node.literal 2 "x"))) ∧
    compile (Node.any 1) = compileSingle (Node.any 1) ∧
    evalE (compileE (Node.literal 2 "x")) zeroStream 0 =
      (evalRepeat (fun q => evalE (compileSingleE (Node.literal 2 "x")) zeroStream q) 2 0).map
        (fun r => (some (joinUndef r.1), r.2)) ∧
    evalE (compileE (Node.literal 4294967296 "x")) zeroStream 0 =
      .error (.rangeError "Invalid array length") ∧
    Genpass.compile ((Node.literal 2 "x").setCount 5) = Genpass.compile (Node.literal 2 "x") := by
  refine ⟨?_, ?_, ?_, ?_, ?_⟩
  · have h := ((C3_amended (Node.literal 2 "x") 5 zeroStream 0).2.1 (by simp [Node.count])).1
    simpa [Node.count] using h
  · exact (C3_amended (Node.any 1) 0 zeroStream 0).1 (by simp [Node.count])
  · have h := ((C3_amended (Node.literal 2 "x") 5 zeroStream 0).2.1
      (by simp [Node.count])).2.1 (by simp [Node.count])
    simpa [Node.count] using h
  · exact ((C3_amended (Node.literal 4294967296 "x") 0 zeroStream 0).2.1
      (by simp [Node.count])).2.2 (by simp [Node.count])
  · exact (C3_amended (Node.literal 2 "x") 5 zeroStream 0).2.2

/-- Claim C6 (amended): the two copies agree on lowering only for trees
with all repeat counts ≤ 1 and no `AsciiRange` node; the genpass copy's
`compile` is blind to repeat counts, and its `AsciiRange` lowering always
carries the leftover dot of `.toString()`, which makes the emitted text
syntactically malformed. -/
theorem C6_amended : ∀ t : Node,
    (countsLe1 t = true → noAsciiRange t = true → compile t = Genpass.compile t) ∧
    (∀ c : ℤ, Genpass.compile (t.setCount c) = Genpass.compile t) ∧
    (∀ a b : Option ℤ, Genpass.compile (Node.asciiRange 1 a b) =
      "String.fromCharCode(randRange(" ++ jsToString a ++ "," ++ jsToString b ++ ").)") := by
  intro t
  refine ⟨compile_eq_genpass t, genpass_setCount_invisible t, ?_⟩
  intro a b
  rw [Genpass.compile.eq_def]
  dsimp only
  rw [show (").toString()" : String) = ")" ++ ".toString()" from rfl]
  rw [← String.append_assoc ("randRange(" ++ jsToString a ++ "," ++ jsToString b)]
  rw [substring_chop10]
  rw [show ("String.fromCharCode(randRange(" : String) =
    "String.fromCharCode(" ++ "randRange(" from rfl]
  rw [show (").)" : String) = ")" ++ "." ++ ")" from rfl]
  simp only [String.append_assoc]

/-- Claim C6 witness. -/
theorem C6_amended_witness :
    compile (Node.sampleSet 1 "ab") = Genpass.compile (Node.sampleSet 1 "ab") ∧
    Genpass.compile (Node.asciiRange 1 (some 97) (some 100)) =
      "String.fromCharCode(randRange(" ++ jsToString (some 97) ++ "," ++
        jsToString (some 100) ++ ").)" := by
  constructor
  · exact (C6_amended (Node.sampleSet 1 "ab")).1 (by simp [countsLe1, Node.count])
      (by simp [noAsciiRange])
  · exact (C6_amended (Node.any 1)).2.2 (some 97) (some 100)

/-- Claim C7 (amended): `part_001`'s `parseRepl` reports success whenever
the parse succeeds, displaying the evaluation outcome (or the caught
fault's message) after the emitted source; `genpass.js`'s `parseRepl` has
no inner catch, so an evaluation fault reaches the outer handler and the
turn is reported as failed. -/
theorem C7_amended :
    (∀ (str : String) (s : Stream32) (t : Node), parse str = .ok t →
      parseRepl str s = (compile t ++ "\n" ++ evalDisplay (evalE (compileE t) s 0), true)) ∧
    (∀ (str : String) (s : Stream32) (t : Node) (e : Err),
      Genpass.parse str = .ok t → Genpass.evalResult t s = .error e →
      (Genpass.parseRepl str s).2 = false) := by
  constructor
  · intro str s t h
    unfold parseRepl
    rw [h]
  · intro str s t e h he
    unfold Genpass.parseRepl
    rw [h]
    simp [he]

/-- Claim C7 witness. -/
theorem C7_amended_witness :
    parseRepl "#" zeroStream =
      (compile (Node.group 1 [Node.numeric 1] true) ++ "\n" ++
        evalDisplay (evalE (compileE (Node.group 1 [Node.numeric 1] true)) zeroStream 0),
        true) ∧
    (Genpass.parseRepl ":a-c;" zeroStream).2 = false := by
  constructor
  · refine C7_amended.1 "#" zeroStream _ ?_
    unfold parse parseWith
    rw [parseLoop_unfold]
    simp [parseToken, topEnd, pushNode, pushFrame, closeFrame, PState.bump,
      consumeUntil, expectedMsg, handleRange, rangeLoop_unfold, handleRepeat,
      bumpLast, mkSegNode, splitOnChar, jsIsNaN, decimalBody, isDigit, isJsSpace,
      isHexDigit, jsParseInt, digitsToNat, mkRange, mkAsciiRange, mkAlpha,
      charCodeAt0, String.append, String.singleton, String.push, String.ext_iff,
      Node.setCount, lowerAlpha, upperAlpha, symbolSet, basicSymbolSet]
    rw [parseLoop_unfold]
    simp [topEnd]
  · refine C7_amended.2 ":a-c;" zeroStream
      (Node.group 1 [Node.asciiRange 1 (some 97) (some 100)] true)
      (.malformed "Unexpected token \x27)\x27") ?_ ?_
    · unfold Genpass.parse parseWith
      rw [parseLoop_unfold]
      simp [parseToken, topEnd, pushNode, pushFrame, closeFrame, PState.bump,
        consumeUntil, expectedMsg, handleRange, rangeLoop_unfold, handleRepeat,
        bumpLast, mkSegNode, splitOnChar, jsIsNaN, decimalBody, isDigit, isJsSpace,
        isHexDigit, jsParseInt, digitsToNat, mkRange, mkAsciiRange, mkAlpha,
        charCodeAt0, String.append, String.singleton, String.push, String.ext_iff,
        Node.setCount, lowerAlpha, upperAlpha, symbolSet, basicSymbolSet]
      rw [parseLoop_unfold]
      simp [topEnd]
    · simp [Genpass.evalResult, Genpass.compileE, Genpass.compileEList, bind, Except.bind]

/-- Claim C8 (amended): a `<…>` block whose content does not parse as an
integer faults with a `ParseError` carrying the fixed message and the
zero-based index of the `<` character; a block with an integer content but
no preceding sibling in the current frame instead raises an unclassified
`TypeError` that carries no index. -/
theorem C8_amended :
    (∀ (rl : Bool) (head : ℕ) (numStr : String) (st : PState),
      jsParseInt numStr = none →
      handleRepeat rl head numStr st =
        .error (.parseError "Repeat modifier must be a number" head)) ∧
    (∀ (head : ℕ) (numStr : String) (st : PState) (n : ℤ) (f : Frame) (rest : List Frame),
      jsParseInt numStr = some n → st.stack = f :: rest → f.children = [] →
      handleRepeat false head numStr st =
        .error (.typeError "Cannot read properties of undefined (reading \x27setCount\x27)")) ∧
    (∀ (rl : Bool) (st : PState) (numStr : String) (e2 : Char) (st₂ : PState),
      st.input.get? st.current = some '<' → topEnd st ≠ some '<' →
      consumeUntil ['>'] (st.bump 1) = .ok (numStr, e2, st₂) →
      jsParseInt numStr = none →
      parseToken rl st = .error (.parseError "Repeat modifier must be a number" st.current)) := by
  refine ⟨?_, ?_, ?_⟩
  · intro rl head numStr st h
    unfold handleRepeat
    rw [h]
  · intro head numStr st n f rest hn hst hch
    unfold handleRepeat
    rw [hn, hst]
    simp [bumpLast, hch]
  · intro rl st numStr e2 st₂ hget htop hcu hn
    unfold parseToken
    rw [hget]
    simp only [if_neg htop]
    rw [hcu]
    simp only [hn]
    unfold handleRepeat
    rw [hn]

/-- Claim C8 witness. -/
theorem C8_amended_witness :
    parseToken false ⟨"<x>".data, 0, [⟨none, true, []⟩]⟩ =
      .error (.parseError "Repeat modifier must be a number" 0) ∧
    handleRepeat false 0 "3" ⟨"<3>".data, 3, [⟨none, true, []⟩]⟩ =
      .error (.typeError "Cannot read properties of undefined (reading \x27setCount\x27)") := by
  constructor
  · refine C8_amended.2.2 false ⟨"<x>".data, 0, [⟨none, true, []⟩]⟩ "x" '>'
      ⟨"<x>".data, 3, [⟨none, true, []⟩]⟩ (by decide) (by simp [topEnd]) ?_ (by decide)
    simp [consumeUntil, PState.bump, String.singleton, String.append, String.push,
      String.ext_iff, expectedMsg]
  · exact C8_amended.2.1 0 "3" ⟨"<3>".data, 3, [⟨none, true, []⟩]⟩ 3
      ⟨none, true, []⟩ [] (by decide) rfl rfl

end RNGzus

namespace RNGzus

theorem splitOnChar_ne_nil (sep : Char) (l : List Char) : splitOnChar sep l ≠ [] := by
  cases l with
  | nil => simp [splitOnChar]
  | cons c rest =>
    unfold splitOnChar
    cases h : splitOnChar sep rest with
    | nil => simp
    | cons a t => by_cases hc : c = sep <;> simp [hc]

theorem mkSegNode_shape {src : String} {n : Node} (h : mkSegNode src = .ok n) :
    (jsIsNaN (((splitOnChar '-' src.data).map String.mk).headD "") = false ∧
      ∃ a b, n = Node.range 1 a b) ∨
    (jsIsNaN (((splitOnChar '-' src.data).map String.mk).headD "") = true ∧
      ∃ a b, n = Node.asciiRange 1 a b) := by
  unfold mkSegNode at h
  dsimp only at h
  by_cases hnan :
      jsIsNaN (((splitOnChar '-' src.data).map String.mk).headD "") = true
  · rw [if_pos hnan] at h
    refine Or.inr ⟨hnan, ?_⟩
    split at h
    · exact Except.noConfusion h
    · obtain rfl := Except.ok.inj h
      exact ⟨_, _, rfl⟩
  · rw [if_neg hnan] at h
    obtain rfl := Except.ok.inj h
    exact Or.inl ⟨by simpa using hnan, _, _, rfl⟩

theorem rangeLoop_nodes (st : PState) (acc : List Node) :
    ∀ segs st', rangeLoop st acc = .ok (segs, st') →
      acc.length < segs.length ∧
      ∀ n ∈ segs, n ∈ acc ∨ ∃ src, mkSegNode src = Except.ok n := by
  refine rangeLoop.induct
    (fun st acc => ∀ segs st', rangeLoop st acc = .ok (segs, st') →
      acc.length < segs.length ∧
      ∀ n ∈ segs, n ∈ acc ∨ ∃ src, mkSegNode src = Except.ok n) ?_ ?_ ?_ ?_ st acc
  · intro x acc' e hc segs st' hok
    unfold rangeLoop at hok
    split at hok
    · exact Except.noConfusion hok
    · rename_i rs et st1 heq
      rw [hc] at heq
      exact Except.noConfusion heq
  · intro x acc' rangeStr endTok st₁ hc e hseg segs st' hok
    unfold rangeLoop at hok
    split at hok
    · exact Except.noConfusion hok
    · rename_i rs et st1 heq
      rw [hc] at heq
      simp only [Except.ok.injEq, Prod.mk.injEq] at heq
      obtain ⟨rfl, rfl, rfl⟩ := heq
      simp [hseg] at hok
  · intro x acc' rangeStr st₁ node hseg hc segs st' hok
    unfold rangeLoop at hok
    split at hok
    · exact Except.noConfusion hok
    · rename_i rs et st1 heq
      rw [hc] at heq
      simp only [Except.ok.injEq, Prod.mk.injEq] at heq
      obtain ⟨rfl, rfl, rfl⟩ := heq
      simp only [hseg, if_true] at hok
      simp only [Except.ok.injEq, Prod.mk.injEq] at hok
      obtain ⟨rfl, rfl⟩ := hok.symm
      constructor
      · simp
      · intro n hn
        rw [List.mem_append] at hn
        rcases hn with hn | hn
        · exact Or.inl hn
        · simp at hn
          subst hn
          exact Or.inr ⟨rangeStr, hseg⟩
  · intro x acc' rangeStr endTok st₁ hc node hseg hend ih segs st' hok
    unfold rangeLoop at hok
    split at hok
    · exact Except.noConfusion hok
    · rename_i rs et st1 heq
      rw [hc] at heq
      simp only [Except.ok.injEq, Prod.mk.injEq] at heq
      obtain ⟨rfl, rfl, rfl⟩ := heq
      simp only [hseg, if_neg hend] at hok
      obtain ⟨h1, h2⟩ := ih segs st' hok
      constructor
      · simp at h1
        omega
      · intro n hn
        rcases h2 n hn with hmem | hsrc
        · rw [List.mem_append] at hmem
          rcases hmem with hmem | hmem
          · exact Or.inl hmem
          · simp at hmem
            subst hmem
            exact Or.inr ⟨rangeStr, hseg⟩
        · exact Or.inr hsrc

end RNGzus

namespace RNGzus

/-- Claim C4 (amended): a `:`…`;` block parses into a nonempty list of
segments in encounter order, each a `Range` node (start accepted by the
host's `isNaN` coercion) or an `AsciiRange` node (start rejected by it);
a single segment is pushed bare, two or more are wrapped in a Group whose
`sequential` flag is **false** — and a non-sequential group's `generate`
returns the `process()` output of one sampled child, not a concatenation
of all children. -/
theorem C4_amended :
    (∀ st st', handleRange st = .ok st' →
      ∃ segs stL, rangeLoop st [] = .ok (segs, stL) ∧ segs ≠ [] ∧
        (∀ n ∈ segs, ∃ src, mkSegNode src = Except.ok n ∧
          ((jsIsNaN (((splitOnChar '-' src.data).map String.mk).headD "") = false ∧
            ∃ a b, n = Node.range 1 a b) ∨
           (jsIsNaN (((splitOnChar '-' src.data).map String.mk).headD "") = true ∧
            ∃ a b, n = Node.asciiRange 1 a b))) ∧
        (1 < segs.length → st' = pushNode stL (Node.group 1 segs false)) ∧
        (segs.length = 1 → st' = pushNode stL (segs.headD (Node.any 1)))) ∧
    (∀ (c : ℤ) (ch : List Node) (s : Stream32) (p : ℕ) r,
      generate (Node.group c ch false) s p = .ok r →
      ∃ child r', sample ch (word s p) = some child ∧
        process child s (p + 1) = .ok r' ∧ r.val = some r'.val) := by
  constructor
  · intro st st' h
    unfold handleRange at h
    split at h
    · exact Except.noConfusion h
    · rename_i segs stL heq
      obtain ⟨hlen, hmem⟩ := rangeLoop_nodes st [] segs stL heq
      simp only [List.length_nil] at hlen
      refine ⟨segs, stL, heq, by intro hnil; rw [hnil] at hlen; simp at hlen, ?_, ?_, ?_⟩
      · intro n hn
        rcases hmem n hn with hfalse | ⟨src, hsrc⟩
        · simp at hfalse
        · exact ⟨src, hsrc, mkSegNode_shape hsrc⟩
      · intro hgt
        rw [if_pos hgt] at h
        exact (Except.ok.inj h).symm
      · intro h1
        rw [if_neg (by omega)] at h
        cases hsegs : segs with
        | nil => rw [hsegs] at hlen; simp at hlen
        | cons n rest =>
          rw [hsegs] at h1
          simp at h1
          subst h1
          rw [hsegs] at h
          simp at h
          simp
          exact h.symm
  · intro c ch s p r h
    rw [generate.eq_def] at h
    dsimp only at h
    rw [if_neg (by simp)] at h
    split at h
    · exact Except.noConfusion h
    · rename_i child hs
      cases hp : processF (fun q => generate child s q) child.count (p + 1) with
      | ok r₀ =>
        rw [hp] at h
        simp only [bind, Except.bind, Except.ok.injEq] at h
        refine ⟨child, r₀, hs, ?_, ?_⟩
        · unfold process
          exact hp
        · rw [← h]
      | error e =>
        rw [hp] at h
        simp [bind, Except.bind] at h

end RNGzus

namespace RNGzus

/-- Claim C4 witness. -/
theorem C4_amended_witness :
    (∃ segs stL, rangeLoop ⟨":1-5;".data, 1, [⟨none, true, []⟩]⟩ [] = .ok (segs, stL) ∧
      segs ≠ [] ∧
      (∀ n ∈ segs, ∃ src, mkSegNode src = Except.ok n ∧
        ((jsIsNaN (((splitOnChar '-' src.data).map String.mk).headD "") = false ∧
          ∃ a b, n = Node.range 1 a b) ∨
         (jsIsNaN (((splitOnChar '-' src.data).map String.mk).headD "") = true ∧
          ∃ a b, n = Node.asciiRange 1 a b))) ∧
      (1 < segs.length →
        pushNode ⟨":1-5;".data, 5, [⟨none, true, []⟩]⟩ (Node.range 1 (some 1) (some 6)) =
          pushNode stL (Node.group 1 segs false)) ∧
      (segs.length = 1 →
        pushNode ⟨":1-5;".data, 5, [⟨none, true, []⟩]⟩ (Node.range 1 (some 1) (some 6)) =
          pushNode stL (segs.headD (Node.any 1)))) ∧
    (∃ child r', sample [Node.numeric 1] (word zeroStream 0) = some child ∧
      process child zeroStream (0 + 1) = .ok r' ∧
      (⟨some "0", 2, [(some 0, some 1), (some 0, some 10)]⟩ : GRes (Option String)).val =
        some r'.val) := by
  constructor
  · refine C4_amended.1 ⟨":1-5;".data, 1, [⟨none, true, []⟩]⟩
      (pushNode ⟨":1-5;".data, 5, [⟨none, true, []⟩]⟩ (Node.range 1 (some 1) (some 6))) ?_
    simp [handleRange, rangeLoop_unfold, consumeUntil, PState.bump, mkSegNode,
      splitOnChar, jsIsNaN, decimalBody, isDigit, isJsSpace, isHexDigit, jsParseInt,
      digitsToNat, mkRange, mkAsciiRange, charCodeAt0, String.append, String.singleton,
      String.push, String.ext_iff, expectedMsg]
  · refine C4_amended.2 1 [Node.numeric 1] zeroStream 0
      ⟨some "0", 2, [(some 0, some 1), (some 0, some 10)]⟩ ?_
    simp [generate, processF, genRepeat, processChildren, sample, word, randRange,
      joinUndef, Node.count, bind, Except.bind, zeroStream, jsToString,
      String.ext_iff, String.append, String.singleton, String.push]
    decide

end RNGzus

namespace RNGzus

mutual

/-- Trees whose every `randRange` draw is well-formed: sample sets
nonempty, non-sequential groups nonempty, and range-style nodes with a
defined start strictly below the stored exclusive end. -/
def wfDraws : Node → Bool
  | .literal _ _ => true
  | .group _ ch sq => (sq || decide (0 < ch.length)) && wfDrawsList ch
  | .sampleSet _ s => decide (0 < s.length)
  | .any _ => true
  | .numeric _ => true
  | .range _ (some a) (some b) => decide (a < b)
  | .range _ _ _ => false
  | .asciiRange _ (some a) (some b) => decide (a < b)
  | .asciiRange _ _ _ => false
  termination_by t => sizeOf t

/-- `wfDraws` over a child list. -/
def wfDrawsList : List Node → Bool
  | [] => true
  | t :: rest => wfDraws t && wfDrawsList rest
  termination_by ts => sizeOf ts

end

theorem wfDrawsList_mem {ts : List Node} {t : Node}
    (h : wfDrawsList ts = true) (hm : t ∈ ts) : wfDraws t = true := by
  induction ts with
  | nil => simp at hm
  | cons a rest ih =>
    unfold wfDrawsList at h
    rw [Bool.and_eq_true] at h
    rcases hm with _ | hm
    · exact h.1
    · exact ih h.2 (by assumption)

theorem genRepeat_calls {g : ℕ → Except Err (GRes (Option String))}
    (hg : ∀ p r, g p = .ok r → ∀ cl ∈ GRes.calls r, goodCall cl) :
    ∀ k p r, genRepeat g k p = .ok r → ∀ cl ∈ GRes.calls r, goodCall cl := by
  intro k
  induction k with
  | zero =>
    intro p r h cl hcl
    unfold genRepeat at h
    obtain rfl := Except.ok.inj h
    simp at hcl
  | succ n ih =>
    intro p r h cl hcl
    unfold genRepeat at h
    cases h1 : g p with
    | error e => rw [h1] at h; simp [bind, Except.bind] at h
    | ok r₁ =>
      rw [h1] at h
      simp only [bind, Except.bind] at h
      cases h2 : genRepeat g n r₁.pos with
      | error e => rw [h2] at h; exact Except.noConfusion h
      | ok r₂ =>
        rw [h2] at h
        obtain rfl := Except.ok.inj h
        simp only [GRes.calls, List.mem_append] at hcl
        rcases hcl with hcl | hcl
        · exact hg p r₁ h1 cl hcl
        · exact ih r₁.pos r₂ h2 cl hcl

theorem processF_calls {g : ℕ → Except Err (GRes (Option String))}
    (hg : ∀ p r, g p = .ok r → ∀ cl ∈ GRes.calls r, goodCall cl) :
    ∀ (count : ℤ) (p : ℕ) r, processF g count p = .ok r →
      ∀ cl ∈ GRes.calls r, goodCall cl := by
  intro count p r h cl hcl
  unfold processF at h
  split at h
  · exact Except.noConfusion h
  · cases h2 : genRepeat g count.toNat p with
    | error e => rw [h2] at h; simp [bind, Except.bind] at h
    | ok r₂ =>
      rw [h2] at h
      simp only [bind, Except.bind] at h
      obtain rfl := Except.ok.inj h
      exact genRepeat_calls hg count.toNat p r₂ h2 cl hcl

mutual

theorem generate_calls (t : Node) (hwf : wfDraws t = true) :
    ∀ (s : Stream32) (p : ℕ) r, generate t s p = .ok r →
      ∀ cl ∈ GRes.calls r, goodCall cl := by
  intro s p r h cl hcl
  match t with
  | .literal c str =>
    rw [generate.eq_def] at h
    obtain rfl := Except.ok.inj h
    simp [GRes.calls] at hcl
  | .any c =>
    rw [generate.eq_def] at h
    obtain rfl := Except.ok.inj h
    simp [GRes.calls] at hcl
    subst hcl
    exact ⟨32, 127, rfl, by omega⟩
  | .numeric c =>
    rw [generate.eq_def] at h
    obtain rfl := Except.ok.inj h
    simp [GRes.calls] at hcl
    subst hcl
    exact ⟨0, 10, rfl, by omega⟩
  | .sampleSet c str =>
    rw [generate.eq_def] at h
    obtain rfl := Except.ok.inj h
    simp [GRes.calls] at hcl
    subst hcl
    refine ⟨0, str.length, rfl, ?_⟩
    unfold wfDraws at hwf
    simp at hwf
    exact_mod_cast hwf
  | .range c a b =>
    rw [generate.eq_def] at h
    obtain rfl := Except.ok.inj h
    simp [GRes.calls] at hcl
    subst hcl
    match a, b with
    | some a', some b' =>
      unfold wfDraws at hwf
      simp at hwf
      exact ⟨a', b', rfl, hwf⟩
    | none, _ => unfold wfDraws at hwf; simp at hwf
    | some a', none => unfold wfDraws at hwf; simp at hwf
  | .asciiRange c a b =>
    rw [generate.eq_def] at h
    obtain rfl := Except.ok.inj h
    simp [GRes.calls] at hcl
    subst hcl
    match a, b with
    | some a', some b' =>
      unfold wfDraws at hwf
      simp at hwf
      exact ⟨a', b', rfl, hwf⟩
    | none, _ => unfold wfDraws at hwf; simp at hwf
    | some a', none => unfold wfDraws at hwf; simp at hwf
  | .group c ch sq =>
    unfold wfDraws at hwf
    rw [Bool.and_eq_true] at hwf
    rw [generate.eq_def] at h
    dsimp only at h
    cases sq with
    | true =>
      rw [if_pos rfl] at h
      cases hpc : processChildren ch s p with
      | error e => rw [hpc] at h; simp [bind, Except.bind] at h
      | ok rr =>
        rw [hpc] at h
        simp only [bind, Except.bind] at h
        obtain rfl := Except.ok.inj h
        exact processChildren_calls ch hwf.2 s p rr hpc cl hcl
    | false =>
      rw [if_neg (by simp)] at h
      split at h
      · exact Except.noConfusion h
      · rename_i child hs
        cases hp : processF (fun q => generate child s q) child.count (p + 1) with
        | error e => rw [hp] at h; simp [bind, Except.bind] at h
        | ok rF =>
          rw [hp] at h
          simp only [bind, Except.bind] at h
          obtain rfl := Except.ok.inj h
          simp only [GRes.calls, List.mem_cons] at hcl
          rcases hcl with hcl | hcl
          · subst hcl
            refine ⟨0, ch.length, rfl, ?_⟩
            have h0 : 0 < ch.length := by simpa using hwf.1
            exact_mod_cast h0
          · have hchild : wfDraws child = true :=
              wfDrawsList_mem hwf.2 (mem_of_sample hs)
            exact processF_calls (fun q rq hq => generate_calls child hchild s q rq hq)
              child.count (p + 1) rF hp cl hcl
  termination_by sizeOf t
  decreasing_by
    all_goals simp_wf
    all_goals first
      | omega
      | (have hsz := List.sizeOf_lt_of_mem (mem_of_sample (by assumption)); omega)

theorem processChildren_calls (ts : List Node) (hwf : wfDrawsList ts = true) :
    ∀ (s : Stream32) (p : ℕ) r, processChildren ts s p = .ok r →
      ∀ cl ∈ GRes.calls r, goodCall cl := by
  intro s p r h cl hcl
  match ts with
  | [] =>
    rw [processChildren.eq_def] at h
    obtain rfl := Except.ok.inj h
    simp [GRes.calls] at hcl
  | child :: rest =>
    unfold wfDrawsList at hwf
    rw [Bool.and_eq_true] at hwf
    rw [processChildren.eq_def] at h
    dsimp only at h
    cases h1 : processF (fun q => generate child s q) child.count p with
    | error e => rw [h1] at h; simp [bind, Except.bind] at h
    | ok r₁ =>
      rw [h1] at h
      simp only [bind, Except.bind] at h
      cases h2 : processChildren rest s r₁.pos with
      | error e => rw [h2] at h; exact Except.noConfusion h
      | ok r₂ =>
        rw [h2] at h
        obtain rfl := Except.ok.inj h
        simp only [GRes.calls, List.mem_append] at hcl
        rcases hcl with hcl | hcl
        · exact processF_calls (fun q rq hq => generate_calls child hwf.1 s q rq hq)
            child.count p r₁ h1 cl hcl
        · exact processChildren_calls rest hwf.2 s r₁.pos r₂ h2 cl hcl
  termination_by sizeOf ts
  decreasing_by
    all_goals simp_wf
    all_goals omega

end

/-- Claim C9 (amended): for every tree whose sample sets are nonempty,
whose non-sequential groups have children, and whose range-style nodes
have a defined start strictly below the stored exclusive end, every
`randRange(min, max)` call made during a completed `process()` run
satisfies `min < max`.  (Patterns like `[]` or `:5-1;` parse successfully
but violate this well-formedness and do call `randRange` with
`max ≤ min`.) -/
theorem C9_amended (t : Node) (hwf : wfDraws t = true) (s : Stream32) (p : ℕ)
    (r : GRes String) (h : process t s p = .ok r) :
    ∀ cl ∈ r.calls, goodCall cl := by
  unfold process at h
  exact processF_calls (fun q rq hq => generate_calls t hwf s q rq hq) t.count p r h

/-- Claim C9 witness. -/
theorem C9_amended_witness : goodCall ((some 0 : Option ℤ), (some 2 : Option ℤ)) := by
  refine C9_amended (Node.sampleSet 1 "ab") (by unfold wfDraws; decide) zeroStream 0
    ⟨"a", 1, [(some 0, some 2)]⟩ ?_ (some 0, some 2) (by simp)
  simp [process, processF, genRepeat, generate, sample, word, randRange, joinUndef,
    Node.count, bind, Except.bind, zeroStream, String.ext_iff, String.append,
    String.singleton, String.push]
  decide

end RNGzus

namespace RNGzus

/-- An entropy stream none of whose 32-bit words is the extreme value
`0xffffffff`.  On that word `rnd = u / 0xffffffff` is exactly `1`, so
`randRange` returns its upper bound and `sample` falls off the end of its
collection; below it every draw stays strictly inside its range. -/
def properStream (s : Stream32) : Prop := ∀ p, word s p < 4294967295

mutual

/-- Length (in characters) of a single `generate()` output, when that
length is independent of the entropy drawn: a literal contributes its own
length, the single-character leaves contribute `1`, a sequential group the
sum of its children's `process()` lengths, and a non-sequential group the
common `process()` length of its children when they all agree.  `Range`
nodes (whose decimal output has a draw-dependent digit count), empty
sample sets and empty non-sequential groups have no determined length
(`none`). -/
def genLen : Node → Option ℕ
  | .literal _ str => some str.length
  | .group _ children true => lenSum children
  | .group _ children false =>
    match children with
    | [] => none
    | c :: cs =>
      match nodeLen c with
      | none => none
      | some n => if allSameLen n cs then some n else none
  | .sampleSet _ str => if str.data.isEmpty then none else some 1
  | .any _ => some 1
  | .numeric _ => some 1
  | .range _ _ _ => none
  | .asciiRange _ _ _ => some 1
  termination_by t => (sizeOf t, 0)

/-- Determined length of a node's full `process()` output: `count` copies
of its `generate()` length (undefined when `count` is not a valid array
length — negative or at least `2^32` — where `process` raises a
`RangeError` instead). -/
def nodeLen (t : Node) : Option ℕ :=
  if t.count < 0 ∨ 4294967296 ≤ t.count then none
  else match genLen t with
    | none => none
    | some m => some (m * t.count.toNat)
  termination_by (sizeOf t, 1)

/-- Sum of the determined `process()` lengths of a child list. -/
def lenSum : List Node → Option ℕ
  | [] => some 0
  | t :: ts =>
    match nodeLen t, lenSum ts with
    | some a, some b => some (a + b)
    | _, _ => none
  termination_by ts => (sizeOf ts, 0)

/-- Every node in the list has determined `process()` length `n`. -/
def allSameLen (n : ℕ) : List Node → Bool
  | [] => true
  | t :: ts => decide (nodeLen t = some n) && allSameLen n ts
  termination_by ts => (sizeOf ts, 0)

end

theorem randRange_zero_len (len u : ℕ) :
    randRange 0 (len : ℤ) u = ((u * len / 4294967295 : ℕ) : ℤ) := by
  unfold randRange
  have h : (0 : ℤ) * 4294967295 + (u : ℤ) * ((len : ℤ) - 0) = ((u * len : ℕ) : ℤ) := by
    push_cast
    ring
  rw [h]
  exact_mod_cast (Int.ofNat_fdiv (u * len) 4294967295).symm

theorem natDiv_lt (len u : ℕ) (hlen : 0 < len) (hu : u < 4294967295) :
    u * len / 4294967295 < len := by
  rw [Nat.div_lt_iff_lt_mul (by norm_num)]
  have h : u * len < 4294967295 * len := by
    apply Nat.mul_lt_mul_of_lt_of_le hu (le_refl len)
    exact hlen
  omega

theorem sample_proper {α : Type} (l : List α) (u : ℕ) (hne : l ≠ [])
    (hu : u < 4294967295) : ∃ a, sample l u = some a ∧ a ∈ l := by
  unfold sample
  have hlen : 0 < l.length := List.length_pos.mpr hne
  have hidx : (randRange 0 (l.length : ℤ) u).toNat < l.length := by
    rw [randRange_zero_len]
    simpa using natDiv_lt l.length u hlen hu
  exact ⟨l.get ⟨_, hidx⟩, List.get?_eq_get hidx, List.get_mem l _ hidx⟩

theorem intToString_len_one (v : ℤ) (h0 : 0 ≤ v) (h1 : v < 10) :
    (toString v).length = 1 := by
  interval_cases v <;> rfl

theorem foldl_undef_length (l : List (Option String)) (init : String) :
    (l.foldl (fun acc v => acc ++ v.getD "") init).length =
      init.length + (l.map (fun v => (v.getD "").length)).sum := by
  induction l generalizing init with
  | nil => simp
  | cons a l ih =>
    simp only [List.foldl_cons, List.map_cons, List.sum_cons, ih,
      String.length_append]
    omega

theorem joinUndef_length (l : List (Option String)) :
    (joinUndef l).length = (l.map (fun v => (v.getD "").length)).sum := by
  unfold joinUndef
  rw [foldl_undef_length]
  simp

theorem stringJoin_length (l : List String) :
    (String.join l).length = (l.map String.length).sum := by
  have h : ∀ (ls : List String) (init : String),
      (ls.foldl (· ++ ·) init).length = init.length + (ls.map String.length).sum := by
    intro ls
    induction ls with
    | nil => intro init; simp
    | cons a ls ih =>
      intro init
      simp only [List.foldl_cons, List.map_cons, List.sum_cons, ih,
        String.length_append]
      omega
  rw [show String.join l = l.foldl (· ++ ·) "" from rfl, h]
  simp

theorem genRepeat_len {g : ℕ → Except Err (GRes (Option String))} {m : ℕ}
    (hg : ∀ p, ∃ r v, g p = .ok r ∧ r.val = some v ∧ v.length = m) :
    ∀ (k p : ℕ), ∃ r, genRepeat g k p = .ok r ∧ (joinUndef r.val).length = k * m := by
  intro k
  induction k with
  | zero =>
    intro p
    exact ⟨⟨[], p, []⟩, rfl, by simp [joinUndef]⟩
  | succ n ih =>
    intro p
    obtain ⟨r₁, v, h1, hv, hlen⟩ := hg p
    obtain ⟨r₂, h2, hlen2⟩ := ih r₁.pos
    refine ⟨⟨r₁.val :: r₂.val, r₂.pos, r₁.calls ++ r₂.calls⟩, ?_, ?_⟩
    · simp [genRepeat, h1, h2, bind, Except.bind]
    · rw [joinUndef_length] at hlen2 ⊢
      simp only [List.map_cons, List.sum_cons, hv, Option.getD_some]
      rw [hlen, hlen2, Nat.succ_mul]
      omega

theorem processF_len {g : ℕ → Except Err (GRes (Option String))} {m : ℕ}
    (hg : ∀ p, ∃ r v, g p = .ok r ∧ r.val = some v ∧ v.length = m)
    (count : ℤ) (hc : ¬ (count < 0 ∨ 4294967296 ≤ count)) (p : ℕ) :
    ∃ r, processF g count p = .ok r ∧ r.val.length = count.toNat * m := by
  obtain ⟨r, h, hlen⟩ := genRepeat_len hg count.toNat p
  refine ⟨⟨joinUndef r.val, r.pos, r.calls⟩, ?_, hlen⟩
  unfold processF
  rw [if_neg hc]
  simp [h, bind, Except.bind]

theorem allSameLen_mem {n : ℕ} {c : Node} {cs : List Node} {t : Node}
    (hc : nodeLen c = some n) (hall : allSameLen n cs = true)
    (hm : t ∈ c :: cs) : nodeLen t = some n := by
  induction cs generalizing c with
  | nil =>
    rcases List.mem_cons.mp hm with rfl | hm
    · exact hc
    · simp at hm
  | cons b bs ih =>
    unfold allSameLen at hall
    rw [Bool.and_eq_true] at hall
    have hb : nodeLen b = some n := of_decide_eq_true hall.1
    rcases List.mem_cons.mp hm with rfl | hm
    · exact hc
    · exact ih hb hall.2 hm

theorem genLen_group_false {c : ℤ} {ch : List Node} {n : ℕ}
    (hl : genLen (.group c ch false) = some n) :
    ch ≠ [] ∧ ∀ t ∈ ch, nodeLen t = some n := by
  unfold genLen at hl
  cases ch with
  | nil => exact Option.noConfusion hl
  | cons c0 cs =>
    dsimp only at hl
    cases hnl : nodeLen c0 with
    | none => rw [hnl] at hl; exact Option.noConfusion hl
    | some m =>
      rw [hnl] at hl
      dsimp only at hl
      split at hl
      case isFalse => exact Option.noConfusion hl
      case isTrue hall =>
      obtain rfl := Option.some.inj hl
      exact ⟨by simp, fun t hm => allSameLen_mem hnl hall hm⟩

mutual

theorem generate_len (t : Node) (n : ℕ) (hl : genLen t = some n)
    (s : Stream32) (hs : properStream s) :
    ∀ p : ℕ, ∃ r v, generate t s p = .ok r ∧ r.val = some v ∧ v.length = n := by
  intro p
  match t with
  | .literal c str =>
    unfold genLen at hl
    obtain rfl := Option.some.inj hl
    exact ⟨⟨some str, p, []⟩, str, by rw [generate.eq_def], rfl, rfl⟩
  | .any c =>
    unfold genLen at hl
    obtain rfl := Option.some.inj hl
    exact ⟨_, String.singleton (fromCharCode (some (randRange 32 127 (word s p)))),
      by rw [generate.eq_def], rfl, rfl⟩
  | .numeric c =>
    unfold genLen at hl
    obtain rfl := Option.some.inj hl
    refine ⟨_, toString (randRange 0 10 (word s p)), by rw [generate.eq_def], rfl, ?_⟩
    have h10 : ((10 : ℕ) : ℤ) = (10 : ℤ) := by norm_num
    have heq := randRange_zero_len 10 (word s p)
    rw [h10] at heq
    rw [heq]
    apply intToString_len_one
    · exact Int.ofNat_nonneg _
    · exact_mod_cast natDiv_lt 10 (word s p) (by norm_num) (hs p)
  | .sampleSet c str =>
    unfold genLen at hl
    split at hl
    · exact Option.noConfusion hl
    · rename_i hemp
      obtain rfl := Option.some.inj hl
      have hne : str.data ≠ [] := by simpa [List.isEmpty_iff] using hemp
      obtain ⟨a, hsa, _⟩ := sample_proper str.data (word s p) hne (hs p)
      refine ⟨⟨(sample str.data (word s p)).map String.singleton, p + 1,
        [(some 0, some (str.length : ℤ))]⟩, String.singleton a,
        by rw [generate.eq_def], ?_, rfl⟩
      rw [hsa]
      rfl
  | .range c a b =>
    unfold genLen at hl
    exact Option.noConfusion hl
  | .asciiRange c a b =>
    unfold genLen at hl
    obtain rfl := Option.some.inj hl
    exact ⟨_, String.singleton (fromCharCode
      (jsParseInt (jsToString (randRangeN a b (word s p))))),
      by rw [generate.eq_def], rfl, rfl⟩
  | .group c ch sq =>
    cases sq with
    | true =>
      unfold genLen at hl
      obtain ⟨r, hpc, hsum⟩ := processChildren_len ch n hl s hs p
      refine ⟨⟨some (String.join r.val), r.pos, r.calls⟩, String.join r.val, ?_, rfl, ?_⟩
      · rw [generate.eq_def]
        dsimp only
        rw [if_pos rfl]
        simp [hpc, bind, Except.bind]
      · rw [stringJoin_length]
        exact hsum
    | false =>
      obtain ⟨hne, hall⟩ := genLen_group_false hl
      obtain ⟨child, hsa, hmem⟩ := sample_proper ch (word s p) hne (hs p)
      have hchild := hall child hmem
      unfold nodeLen at hchild
      split at hchild
      · exact Option.noConfusion hchild
      · rename_i hcnt
        cases hgl : genLen child with
        | none => rw [hgl] at hchild; exact Option.noConfusion hchild
        | some m2 =>
          rw [hgl] at hchild
          dsimp only at hchild
          obtain hn := Option.some.inj hchild
          obtain ⟨rF, hpF, hlenF⟩ :=
            processF_len (fun q => generate_len child m2 hgl s hs q)
              child.count hcnt (p + 1)
          refine ⟨⟨some rF.val, rF.pos,
            (some 0, some (ch.length : ℤ)) :: rF.calls⟩, rF.val, ?_, rfl, ?_⟩
          · rw [generate.eq_def]
            dsimp only
            rw [if_neg (by simp)]
            split
            · rename_i hnone
              rw [hsa] at hnone
              exact Option.noConfusion hnone
            · rename_i child2 hsome
              rw [hsa] at hsome
              obtain rfl := Option.some.inj hsome
              simp [hpF, bind, Except.bind]
          · rw [hlenF, Nat.mul_comm]
            exact hn
  termination_by sizeOf t
  decreasing_by
    all_goals simp_wf
    all_goals first
      | omega
      | (have hsz := List.sizeOf_lt_of_mem (by assumption); omega)

theorem processChildren_len (ts : List Node) (n : ℕ) (hl : lenSum ts = some n)
    (s : Stream32) (hs : properStream s) :
    ∀ p : ℕ, ∃ r, processChildren ts s p = .ok r ∧ (r.val.map String.length).sum = n := by
  intro p
  match ts with
  | [] =>
    unfold lenSum at hl
    obtain rfl := Option.some.inj hl
    exact ⟨⟨[], p, []⟩, by rw [processChildren.eq_def], by simp⟩
  | child :: rest =>
    unfold lenSum at hl
    cases hnl : nodeLen child with
    | none =>
      rw [hnl] at hl
      dsimp only at hl
      exact Option.noConfusion hl
    | some a =>
      rw [hnl] at hl
      cases hls : lenSum rest with
      | none =>
        rw [hls] at hl
        dsimp only at hl
        exact Option.noConfusion hl
      | some b =>
        rw [hls] at hl
        dsimp only at hl
        obtain rfl := Option.some.inj hl
        unfold nodeLen at hnl
        split at hnl
        · exact Option.noConfusion hnl
        · rename_i hcnt
          cases hgl : genLen child with
          | none => rw [hgl] at hnl; exact Option.noConfusion hnl
          | some m =>
            rw [hgl] at hnl
            dsimp only at hnl
            obtain rfl := Option.some.inj hnl
            obtain ⟨r₁, h1, hlen1⟩ :=
              processF_len (fun q => generate_len child m hgl s hs q)
                child.count hcnt p
            obtain ⟨r₂, h2, hlen2⟩ := processChildren_len rest b hls s hs r₁.pos
            refine ⟨⟨r₁.val :: r₂.val, r₂.pos, r₁.calls ++ r₂.calls⟩, ?_, ?_⟩
            · rw [processChildren.eq_def]
              dsimp only
              simp [h1, h2, bind, Except.bind]
            · simp only [List.map_cons, List.sum_cons, hlen1, hlen2, Nat.mul_comm]
  termination_by sizeOf ts
  decreasing_by
    all_goals simp_wf
    all_goals omega

end

theorem process_len (t : Node) (n : ℕ) (hn : nodeLen t = some n)
    (s : Stream32) (hs : properStream s) (p : ℕ) :
    ∃ r, process t s p = .ok r ∧ r.val.length = n := by
  unfold nodeLen at hn
  split at hn
  · exact Option.noConfusion hn
  · rename_i hc
    cases hgl : genLen t with
    | none => rw [hgl] at hn; exact Option.noConfusion hn
    | some m =>
      rw [hgl] at hn
      dsimp only at hn
      obtain rfl := Option.some.inj hn
      obtain ⟨r, h, hlen⟩ :=
        processF_len (fun q => generate_len t m hgl s hs q) t.count hc p
      exact ⟨r, h, by rw [hlen, Nat.mul_comm]⟩

/-- Claim C10 (amended): `process()` output length is a run-independent
function of the tree — but only on the fragment where a length is
determined at all.  For every tree `t` whose `nodeLen` is `some n` (no
`Range` nodes, whose decimal output has a draw-dependent digit count; no
empty sample sets or empty non-sequential groups; non-sequential groups
whose alternatives all have the same determined length; every repeat
count a valid array length, `0 ≤ count < 2^32` — larger counts are
reachable and make `Array(count)` throw a `RangeError` on every run)
and any two entropy streams avoiding the extreme word
`0xffffffff`, both runs of `process` succeed and produce exactly `n`
characters.  (The unamended claim is refuted by `C10_cex`: a parsed
`:0-10;` range node yields `"0"` on one stream and `"10"` on another.) -/
theorem C10_amended (t : Node) (n : ℕ) (hn : nodeLen t = some n)
    (s₁ s₂ : Stream32) (h₁ : properStream s₁) (h₂ : properStream s₂)
    (p₁ p₂ : ℕ) :
    ∃ r₁ r₂, process t s₁ p₁ = .ok r₁ ∧ process t s₂ p₂ = .ok r₂ ∧
      r₁.val.length = r₂.val.length ∧ r₁.val.length = n := by
  obtain ⟨r₁, e₁, l₁⟩ := process_len t n hn s₁ h₁ p₁
  obtain ⟨r₂, e₂, l₂⟩ := process_len t n hn s₂ h₂ p₂
  exact ⟨r₁, r₂, e₁, e₂, by rw [l₁, l₂], l₁⟩

/-- Claim C10 witness: the tree of `[ab]<3>` always produces 3 characters,
on the all-zero stream and on the near-extreme stream alike. -/
theorem C10_amended_witness :
    ∃ r₁ r₂, process (Node.sampleSet 3 "ab") zeroStream 0 = .ok r₁ ∧
      process (Node.sampleSet 3 "ab") nearMaxStream 0 = .ok r₂ ∧
      r₁.val.length = r₂.val.length ∧ r₁.val.length = 3 :=
  C10_amended (Node.sampleSet 3 "ab") 3
    (by unfold nodeLen genLen; simp [Node.count])
    zeroStream nearMaxStream
    (by intro p; simp [properStream, word, zeroStream])
    (by intro p; simp [properStream, word, nearMaxStream])
    0 0

end RNGzus

namespace RNGzus

mutual

/-- Every node of the tree still carries the constructor-default
`this.count = 1`. -/
def allCountsOne : Node → Bool
  | .literal c _ => decide (c = 1)
  | .group c ch _ => decide (c = 1) && allCountsOneList ch
  | .sampleSet c _ => decide (c = 1)
  | .any c => decide (c = 1)
  | .numeric c => decide (c = 1)
  | .range c _ _ => decide (c = 1)
  | .asciiRange c _ _ => decide (c = 1)
  termination_by t => sizeOf t

/-- `allCountsOne` over a child list. -/
def allCountsOneList : List Node → Bool
  | [] => true
  | t :: rest => allCountsOne t && allCountsOneList rest
  termination_by ts => sizeOf ts

end

/-- Every frame on the parse stack holds only count-1 children. -/
def stackOnes (st : PState) : Prop :=
  ∀ f ∈ st.stack, allCountsOneList f.children = true

theorem allCountsOneList_append {l1 l2 : List Node}
    (h1 : allCountsOneList l1 = true) (h2 : allCountsOneList l2 = true) :
    allCountsOneList (l1 ++ l2) = true := by
  induction l1 with
  | nil => simpa using h2
  | cons a l ih =>
    unfold allCountsOneList at h1
    rw [Bool.and_eq_true] at h1
    simp only [List.cons_append]
    unfold allCountsOneList
    rw [Bool.and_eq_true]
    exact ⟨h1.1, ih h1.2⟩

theorem allCountsOneList_of_forall {l : List Node}
    (h : ∀ n ∈ l, allCountsOne n = true) : allCountsOneList l = true := by
  induction l with
  | nil => unfold allCountsOneList; rfl
  | cons a l ih =>
    unfold allCountsOneList
    rw [Bool.and_eq_true]
    exact ⟨h a (List.mem_cons_self a l),
      ih (fun n hn => h n (List.mem_cons_of_mem a hn))⟩

theorem mkSegNode_count1 {src : String} {n : Node} (h : mkSegNode src = .ok n) :
    allCountsOne n = true := by
  rcases mkSegNode_shape h with ⟨-, a, b, rfl⟩ | ⟨-, a, b, rfl⟩ <;>
    (unfold allCountsOne; simp)

theorem stackOnes_pushNode {st : PState} {n : Node} (h : stackOnes st)
    (hn : allCountsOne n = true) : stackOnes (pushNode st n) := by
  intro f hf
  unfold pushNode at hf
  cases hst : st.stack with
  | nil =>
    rw [hst] at hf
    dsimp only at hf
    exact h f hf
  | cons f0 rest =>
    rw [hst] at hf
    dsimp only at hf
    rcases List.mem_cons.mp hf with rfl | hf
    · dsimp only
      refine allCountsOneList_append ?_ ?_
      · exact h f0 (by rw [hst]; exact List.mem_cons_self f0 rest)
      · unfold allCountsOneList
        simp [hn]
        unfold allCountsOneList
        rfl
    · exact h f (by rw [hst]; exact List.mem_cons_of_mem f0 hf)

theorem stackOnes_closeFrame {st st' : PState} (h : stackOnes st)
    (hc : closeFrame st = .ok st') : stackOnes st' := by
  unfold closeFrame at hc
  split at hc
  · exact Except.noConfusion hc
  · rename_i f rest heq
    cases rest with
    | nil => simp at hc
    | cons g rest' =>
      obtain rfl := Except.ok.inj hc
      intro f' hf'
      dsimp only at hf'
      rcases List.mem_cons.mp hf' with rfl | hf'
      · dsimp only
        refine allCountsOneList_append ?_ ?_
        · refine h g ?_
          rw [heq]
          exact List.mem_cons_of_mem f (List.mem_cons_self g rest')
        · unfold allCountsOneList
          rw [Bool.and_eq_true]
          constructor
          · unfold allCountsOne
            rw [Bool.and_eq_true]
            constructor
            · simp
            · refine h f ?_
              rw [heq]
              exact List.mem_cons_self f (g :: rest')
          · unfold allCountsOneList
            rfl
      · refine h f' ?_
        rw [heq]
        exact List.mem_cons_of_mem f (List.mem_cons_of_mem g hf')

theorem stackOnes_handleRange {st st' : PState} (h : stackOnes st)
    (hr : handleRange st = .ok st') : stackOnes st' := by
  unfold handleRange at hr
  split at hr
  · exact Except.noConfusion hr
  · rename_i segs st₁ heq
    obtain ⟨-, -, -, hstk⟩ := rangeLoop_spec st [] segs st₁ heq
    have h₁ : stackOnes st₁ := fun f hf => h f (hstk ▸ hf)
    have hsegs : ∀ n ∈ segs, allCountsOne n = true := by
      intro n hn
      rcases (rangeLoop_nodes st [] segs st₁ heq).2 n hn with hmem | ⟨src, hsrc⟩
      · simp at hmem
      · exact mkSegNode_count1 hsrc
    split at hr
    · obtain rfl := Except.ok.inj hr
      refine stackOnes_pushNode h₁ ?_
      unfold allCountsOne
      rw [Bool.and_eq_true]
      exact ⟨by simp, allCountsOneList_of_forall hsegs⟩
    · cases hhead : segs.head? with
      | none => rw [hhead] at hr; exact Except.noConfusion hr
      | some n =>
        rw [hhead] at hr
        dsimp only at hr
        obtain rfl := Except.ok.inj hr
        refine stackOnes_pushNode h₁ (hsegs n ?_)
        cases segs with
        | nil => exact Option.noConfusion hhead
        | cons a t =>
          have ha : a = n := Option.some.inj hhead
          rw [← ha]
          exact List.mem_cons_self a t

theorem stackOnes_parseToken {rl : Bool} {st st' : PState}
    (hlt : '<' ∉ st.input) (h : stackOnes st)
    (hp : parseToken rl st = .ok st') : stackOnes st' := by
  unfold parseToken at hp
  split at hp
  · obtain rfl := Except.ok.inj hp
    exact h
  · rename_i token heq
    split at hp
    · exact @stackOnes_closeFrame (st.bump 1) _ h hp
    · split at hp
      case _ => -- '.'
        obtain rfl := Except.ok.inj hp
        exact stackOnes_pushNode h (by unfold allCountsOne; simp)
      case _ => -- 'a'
        obtain rfl := Except.ok.inj hp
        exact stackOnes_pushNode h (by unfold mkAlpha allCountsOne; simp)
      case _ => -- 'A'
        obtain rfl := Except.ok.inj hp
        exact stackOnes_pushNode h (by unfold mkAlpha allCountsOne; simp)
      case _ => -- '#'
        obtain rfl := Except.ok.inj hp
        exact stackOnes_pushNode h (by unfold allCountsOne; simp)
      case _ => -- '@'
        obtain rfl := Except.ok.inj hp
        exact stackOnes_pushNode h (by unfold allCountsOne; simp)
      case _ => -- '$'
        obtain rfl := Except.ok.inj hp
        exact stackOnes_pushNode h (by unfold allCountsOne; simp)
      case _ => -- '"'
        split at hp
        · exact Except.noConfusion hp
        · rename_i lit e2 st₂ hcu
          obtain rfl := Except.ok.inj hp
          obtain ⟨-, -, -, hstk⟩ := consumeUntil_spec _ _ _ _ _ hcu
          exact stackOnes_pushNode (fun f hf => h f (hstk ▸ hf))
            (by unfold allCountsOne; simp)
      case _ => -- '['
        split at hp
        · exact Except.noConfusion hp
        · rename_i lit e2 st₂ hcu
          obtain rfl := Except.ok.inj hp
          obtain ⟨-, -, -, hstk⟩ := consumeUntil_spec _ _ _ _ _ hcu
          exact stackOnes_pushNode (fun f hf => h f (hstk ▸ hf))
            (by unfold allCountsOne; simp)
      case _ => -- '<'
        exact absurd (List.get?_mem heq) hlt
      case _ => -- ':'
        exact @stackOnes_handleRange (st.bump 1) _ h hp
      case _ => -- '('
        obtain rfl := Except.ok.inj hp
        intro f hf
        rcases List.mem_cons.mp hf with rfl | hf
        · unfold allCountsOneList; rfl
        · exact h f hf
      case _ => -- '{'
        obtain rfl := Except.ok.inj hp
        intro f hf
        rcases List.mem_cons.mp hf with rfl | hf
        · unfold allCountsOneList; rfl
        · exact h f hf
      case _ => -- default
        obtain rfl := Except.ok.inj hp
        exact h

end RNGzus

namespace RNGzus

theorem parseLoop_ones {rl : Bool} {st st' : PState}
    (hlt : '<' ∉ st.input) (h : stackOnes st)
    (hp : parseLoop rl st = .ok st') : stackOnes st' := by
  refine parseLoop.induct rl
    (fun st => '<' ∉ st.input → stackOnes st → ∀ st', parseLoop rl st = .ok st' →
      stackOnes st')
    ?_ ?_ ?_ st hlt h st' hp
  · intro x hguard e hpt hin hx st₂ hok
    rw [parseLoop_unfold, if_pos hguard, hpt] at hok
    exact Except.noConfusion hok
  · intro x hguard st₁ hpt ih hin hx st₂ hok
    rw [parseLoop_unfold, if_pos hguard, hpt] at hok
    obtain ⟨-, hinp⟩ := parseToken_progress hpt
    exact ih (by rw [hinp]; exact hin) (stackOnes_parseToken hin hx hpt) st₂ hok
  · intro x hguard hin hx st₂ hok
    rw [parseLoop_unfold, if_neg hguard] at hok
    obtain rfl := Except.ok.inj hok
    exact hx

theorem parse_counts_one {str : String} {t : Node} (hlt : '<' ∉ str.data)
    (h : parse str = .ok t) : allCountsOne t = true := by
  unfold parse parseWith at h
  cases hpl : parseLoop false ⟨str.data, 0, [⟨none, true, []⟩]⟩ with
  | error e => rw [hpl] at h; exact Except.noConfusion h
  | ok st =>
    rw [hpl] at h
    dsimp only at h
    split at h
    · exact Except.noConfusion h
    · have hones : stackOnes st := by
        refine parseLoop_ones hlt ?_ hpl
        intro f hf
        simp only [List.mem_singleton] at hf
        subst hf
        unfold allCountsOneList
        rfl
      cases hlast : st.stack.getLast? with
      | none => rw [hlast] at h; exact Except.noConfusion h
      | some rootF =>
        rw [hlast] at h
        dsimp only at h
        obtain rfl := Except.ok.inj h
        have hmem : rootF ∈ st.stack := by
          obtain ⟨hne, heq2⟩ := List.mem_getLast?_eq_getLast (Option.mem_def.mpr hlast)
          rw [heq2]
          exact List.getLast_mem hne
        unfold allCountsOne
        rw [Bool.and_eq_true]
        exact ⟨by simp, hones rootF hmem⟩

theorem handleRepeat_targets {head : ℕ} {numStr : String} {v : ℤ}
    {st : PState} {f : Frame} {rest : List Frame} {init : List Node}
    {last : Node} (hj : jsParseInt numStr = some v) (hst : st.stack = f :: rest)
    (hch : f.children = init ++ [last]) :
    handleRepeat false head numStr st =
      .ok { st with stack :=
        { f with children := init ++ [last.setCount v] } :: rest } := by
  unfold handleRepeat
  rw [hj]
  dsimp only
  rw [if_neg Bool.false_ne_true]
  rw [hst]
  dsimp only
  unfold bumpLast
  rw [hch, List.getLast?_concat]
  dsimp only
  rw [List.dropLast_concat]

end RNGzus

namespace RNGzus

/-- Claim C5 (amended): what actually holds of `repeatCount`.  (1) The
count defaults to `1` and only the `<n>` modifier changes it: any pattern
containing no `<` parses to a tree whose every node still has count `1`.
(2) In `part_001` the modifier targets the most recently pushed node of
the current (innermost) frame — but it stores `parseInt`'s result
unvalidated, so `<0>` or a negative value is accepted (the `≥ 1`
invariant of the claim fails, see `C5_cex`).  (3) `setCount` plainly
overwrites: a second immediately-following modifier replaces the first,
so the assignment is not once-only. -/
theorem C5_amended :
    (∀ (str : String) (t : Node), '<' ∉ str.data → parse str = .ok t →
      allCountsOne t = true) ∧
    (∀ (head : ℕ) (numStr : String) (v : ℤ) (st : PState) (f : Frame)
        (rest : List Frame) (init : List Node) (last : Node),
      jsParseInt numStr = some v → st.stack = f :: rest →
      f.children = init ++ [last] →
      handleRepeat false head numStr st =
        .ok { st with stack :=
          { f with children := init ++ [last.setCount v] } :: rest }) ∧
    (∀ (t : Node) (a b : ℤ), (t.setCount a).setCount b = t.setCount b) := by
  refine ⟨fun str t hlt h => parse_counts_one hlt h,
    fun head numStr v st f rest init last hj hst hch =>
      handleRepeat_targets hj hst hch,
    fun t a b => by cases t <;> rfl⟩

/-- Claim C5 witness: the tree of `"a"` (no modifier) has all counts `1`;
a `<3>` consumed with the innermost frame holding one node sets that
node's count to 3; a second modifier overwrites a first. -/
theorem C5_amended_witness :
    allCountsOne (Node.group 1 [Node.sampleSet 1 lowerAlpha] true) = true ∧
    handleRepeat false 1 "3"
        ⟨"a<3>".data, 4, [⟨none, true, [Node.sampleSet 1 lowerAlpha]⟩]⟩ =
      .ok ⟨"a<3>".data, 4,
        [⟨none, true, [(Node.sampleSet 1 lowerAlpha).setCount 3]⟩]⟩ ∧
    ((Node.sampleSet 1 lowerAlpha).setCount 2).setCount 3 =
      (Node.sampleSet 1 lowerAlpha).setCount 3 := by
  refine ⟨?_, ?_, C5_amended.2.2 (Node.sampleSet 1 lowerAlpha) 2 3⟩
  · refine C5_amended.1 "a" _ (by decide) ?_
    unfold parse parseWith
    rw [parseLoop_unfold]
    simp [parseToken, topEnd, pushNode, pushFrame, closeFrame, PState.bump,
      consumeUntil, expectedMsg, handleRange, rangeLoop_unfold, handleRepeat,
      bumpLast, mkSegNode, splitOnChar, jsIsNaN, decimalBody, isDigit, isJsSpace,
      isHexDigit, jsParseInt, digitsToNat, mkRange, mkAsciiRange, mkAlpha,
      charCodeAt0, String.append, String.singleton, String.push, String.ext_iff,
      Node.setCount, lowerAlpha, upperAlpha, symbolSet, basicSymbolSet]
    rw [parseLoop_unfold]
    simp [topEnd]
  · exact C5_amended.2.1 1 "3" 3
      ⟨"a<3>".data, 4, [⟨none, true, [Node.sampleSet 1 lowerAlpha]⟩]⟩
      ⟨none, true, [Node.sampleSet 1 lowerAlpha]⟩ [] [] (Node.sampleSet 1 lowerAlpha)
      (by decide) rfl rfl

end RNGzus
